import Mathlib

/-!
# Loss functions of `mlpack/methods/ann/loss_functions`

A shallow embedding of the five loss functions

* `cosine_embedding_loss_impl.hpp`
* `earth_mover_distance_impl.hpp`
* `hinge_embedding_loss_impl.hpp`
* `kl_divergence_impl.hpp`
* `log_cosh_loss_impl.hpp`

The element type (`double` in the source) is idealised as a field `α`; the
transcendental functions of the array library (`log`, `cosh`, `tanh`, `sqrt`)
are parameters of the definitions, so that every definition is executable over
`ℚ` and the analytic theorems are stated at `ℝ` with `Real.log`, `Real.cosh`,
`Real.tanh`, `Real.sqrt`.

A dense array is its shape together with its column-major memory, which is what
`arma::vectorise` and `memptr()` expose.  `Forward` returns `Except Error α`;
`Backward` has an in/out argument `loss`, so it returns its status together
with the final value of `loss`.

`LogCoshLoss.construct` is the constructor that validates `a`; the `serialize`
methods run against an `Archive` that is either an output or an input archive,
as the one `serialize` of the source does.  `loopIndices` and `evaluatedPairs`
are the loop of CosineEmbeddingLoss with a body that records, instead of
computing, the index and the arguments of the cosine-distance primitive.

Conventions of the model:

* arithmetic is exact, so rounding is not modelled;
* the mean that `Forward` returns with `reduction = false` is a floating-point
  division of the sum by the element count (the batch size for
  CosineEmbeddingLoss); when that count is 0 the source returns a NaN or an
  infinity, which is no element of the field: the call ends in `nonFinite`;
* `log` is applied as a total function, while the source's logarithm of an
  entry that is not positive is no number; likewise a division by the norm of
  a zero vector in `CosineEmbeddingLoss::Backward` is a division in the field.
  The theorems on the value of KLDivergence and on the gradient formula of
  CosineEmbeddingLoss take positive targets and non-zero vectors as hypotheses;
* the `size_t` division `n_elem / cols` by `cols = 0` is undefined in the
  source and is modelled as the error `divisionByZero`;
* an element-wise operation on arrays of different sizes is refused by the
  array library (`incompatibleDimensions`);
* the spans `arma::span(i, i + cols - 1)` are taken by `List.drop`/`List.take`;
  on well-formed arrays they always lie inside the vector.
-/

namespace mlpack

/-- The ways a call can end without a number of the field. -/
inductive Error where
  /-- The fatal-error sink `Log::Fatal`, written to with "Input Tensors must
  have same dimensions.". -/
  | fatal
  /-- The array library refusing an element-wise operation on arrays of
  different sizes. -/
  | incompatibleDimensions
  /-- The `size_t` division `prediction.n_elem / cols` with `cols = 0`. -/
  | divisionByZero
  /-- The assertion `Log::Assert` on a condition that is false. -/
  | assertion
  /-- The floating-point division of a sum by a count that is 0: the call
  returns, but what it returns is a NaN or an infinity. -/
  | nonFinite
  deriving DecidableEq, Repr

/-- Modelled from the spec: the fatal-error sink `Log::Fatal` is not among the
sources; the spec has a shape mismatch "fatal, reported via the fatal-error
sink, aborts the call", so writing a line to the sink ends the call with an
error and no result. -/
def Log.Fatal {β : Type} : Except Error β := .error .fatal

/-- Modelled from the spec: `Log::Assert` is not among the sources; the spec
has `a` "must be strictly positive — construction fails/asserts otherwise" and
an invalid hyperparameter "fatal at construction, must prevent instance
creation", so an assertion on a false condition ends the call with an error. -/
def Log.Assert (condition : Bool) : Except Error Unit :=
  if condition then .ok () else .error .assertion

/-- A dense array of the array library: shape and column-major memory. -/
structure Mat (α : Type) where
  n_rows : Nat
  n_cols : Nat
  mem : List α
  deriving DecidableEq, Repr

namespace Mat

variable {α : Type}

/-- The element count `m.n_elem`. -/
def n_elem (m : Mat α) : Nat := m.n_rows * m.n_cols

/-- The size `arma::size(m)`. -/
def size (m : Mat α) : Nat × Nat := (m.n_rows, m.n_cols)

/-- The memory holds exactly `n_rows * n_cols` elements. -/
def wf (m : Mat α) : Prop := m.mem.length = m.n_rows * m.n_cols

instance (m : Mat α) : Decidable m.wf := by
  unfold wf; infer_instance

/-- An element-wise unary operation (`-m`, `m / k`, `1 - m`, `arma::log(m)`, ...). -/
def map (f : α → α) (m : Mat α) : Mat α :=
  { n_rows := m.n_rows, n_cols := m.n_cols, mem := m.mem.map f }

/-- An element-wise binary operation (`x % y`, `x - y`, `x + y`): the array
library checks that both operands have the same size. -/
def zipWith (f : α → α → α) (x y : Mat α) : Except Error (Mat α) :=
  if x.size = y.size then
    .ok { n_rows := x.n_rows, n_cols := x.n_cols, mem := List.zipWith f x.mem y.mem }
  else
    .error .incompatibleDimensions

/-- The sum of all elements, `arma::accu(m)`. -/
def accu [Add α] [Zero α] (m : Mat α) : α := m.mem.sum

/-- The vector `arma::vectorise(m)`: the columns stacked into one column vector, which is
the column-major memory itself. -/
def vectorise (m : Mat α) : Mat α :=
  { n_rows := m.n_elem, n_cols := 1, mem := m.mem }

/-- The resize `m.set_size(s)`: the new memory is not initialised; `uninit` is whatever it
holds. -/
def set_size (_m : Mat α) (s : Nat × Nat) (uninit : Nat → α) : Mat α :=
  { n_rows := s.1, n_cols := s.2, mem := (List.range (s.1 * s.2)).map uninit }

end Mat

/-- The subvector `v(arma::span(i, j))`: the elements `i, ..., j` of a vector. -/
def span {α : Type} (v : List α) (i j : Nat) : List α := (v.drop i).take (j + 1 - i)

/-- The assignment `v(arma::span(i, j)) = w`: the elements `i, ..., j` of `v` overwritten by `w`. -/
def setSpan {α : Type} (v : List α) (i j : Nat) (w : List α) : List α :=
  v.take i ++ w ++ v.drop (j + 1)

/-! ## EarthMoverDistance -/

/-- The hyperparameters of `EarthMoverDistance`. -/
structure EarthMoverDistance where
  reduction : Bool
  deriving DecidableEq, Repr

namespace EarthMoverDistance

variable {α : Type} [Field α]

/-- The method `EarthMoverDistance::Forward`.  With `reduction = false` the sum
is divided by `target.n_elem`; for an element count of 0 the quotient is no
number (`nonFinite`). -/
def Forward (self : EarthMoverDistance) (prediction target : Mat α) : Except Error α :=
  match Mat.zipWith (· * ·) target prediction with
  | .error e => .error e
  | .ok prod =>
    let lossSum := -Mat.accu prod
    if self.reduction then .ok lossSum
    else if target.n_elem = 0 then .error .nonFinite
    else .ok (lossSum / (target.n_elem : α))

/-- The method `EarthMoverDistance::Backward`; the prediction is not used. -/
def Backward (self : EarthMoverDistance) (_prediction target _loss : Mat α) :
    Except Error Unit × Mat α :=
  let loss := Mat.map (fun x => -x) target
  let loss := if !self.reduction then Mat.map (fun x => x / (target.n_elem : α)) loss else loss
  (.ok (), loss)

end EarthMoverDistance

/-! ## HingeEmbeddingLoss -/

/-- The hyperparameters of `HingeEmbeddingLoss`. -/
structure HingeEmbeddingLoss where
  reduction : Bool
  deriving DecidableEq, Repr

namespace HingeEmbeddingLoss

variable {α : Type} [Field α]

/-- The method `HingeEmbeddingLoss::Forward`.  With `reduction = false` the sum
is divided by `target.n_elem`; for an element count of 0 the quotient is no
number (`nonFinite`). -/
def Forward (self : HingeEmbeddingLoss) (prediction target : Mat α) : Except Error α :=
  match Mat.zipWith (· * ·) prediction target with
  | .error e => .error e
  | .ok prod =>
    match Mat.zipWith (· + ·) (Mat.map (fun x => x / 2) (Mat.map (fun x => 1 - x) target)) prod with
    | .error e => .error e
    | .ok loss =>
      let lossSum := Mat.accu loss
      if self.reduction then .ok lossSum
      else if target.n_elem = 0 then .error .nonFinite
      else .ok (lossSum / (target.n_elem : α))

/-- The method `HingeEmbeddingLoss::Backward`; the prediction is not used. -/
def Backward (self : HingeEmbeddingLoss) (_prediction target _loss : Mat α) :
    Except Error Unit × Mat α :=
  let loss := target
  let loss := if !self.reduction then Mat.map (fun x => x / (target.n_elem : α)) loss else loss
  (.ok (), loss)

end HingeEmbeddingLoss

/-! ## KLDivergence -/

/-- The hyperparameters of `KLDivergence`. -/
structure KLDivergence where
  reduction : Bool
  deriving DecidableEq, Repr

namespace KLDivergence

variable {α : Type} [Field α]

/-- The method `KLDivergence::Forward`; `log` is the scalar function that
`arma::log` applies to every element.  With `reduction = false` the sum is
divided by `target.n_elem`; for an element count of 0 the quotient is no number
(`nonFinite`). -/
def Forward (log : α → α) (self : KLDivergence) (prediction target : Mat α) :
    Except Error α :=
  match Mat.zipWith (· - ·) (Mat.map log target) prediction with
  | .error e => .error e
  | .ok diff =>
    match Mat.zipWith (· * ·) target diff with
    | .error e => .error e
    | .ok loss =>
      let lossSum := Mat.accu loss
      if self.reduction then .ok lossSum
      else if target.n_elem = 0 then .error .nonFinite
      else .ok (lossSum / (target.n_elem : α))

/-- The method `KLDivergence::Backward`; the prediction is not used. -/
def Backward (self : KLDivergence) (_prediction target _loss : Mat α) :
    Except Error Unit × Mat α :=
  let loss := Mat.map (fun x => -x) target
  let loss := if !self.reduction then Mat.map (fun x => x / (target.n_elem : α)) loss else loss
  (.ok (), loss)

end KLDivergence

/-! ## LogCoshLoss -/

/-- The hyperparameters of `LogCoshLoss`. -/
structure LogCoshLoss (α : Type) where
  a : α
  reduction : Bool
  deriving DecidableEq, Repr

namespace LogCoshLoss

variable {α : Type} [Field α]

/-- The method `LogCoshLoss::Forward`; `log` and `cosh` are the scalar functions
that `arma::log` and `arma::cosh` apply to every element.  With
`reduction = false` the sum is divided by `target.n_elem`; for an element count
of 0 the quotient is no number (`nonFinite`). -/
def Forward (log cosh : α → α) (self : LogCoshLoss α) (prediction target : Mat α) :
    Except Error α :=
  match Mat.zipWith (· - ·) target prediction with
  | .error e => .error e
  | .ok diff =>
    let lossSum :=
      Mat.accu (Mat.map log (Mat.map cosh (Mat.map (fun x => self.a * x) diff))) / self.a
    if self.reduction then .ok lossSum
    else if target.n_elem = 0 then .error .nonFinite
    else .ok (lossSum / (target.n_elem : α))

/-- The method `LogCoshLoss::Backward`; `tanh` is the scalar function that
`arma::tanh` applies to every element.  When `target - prediction` is refused,
`loss` has not been assigned. -/
def Backward (tanh : α → α) (self : LogCoshLoss α) (prediction target loss : Mat α) :
    Except Error Unit × Mat α :=
  match Mat.zipWith (· - ·) target prediction with
  | .error e => (.error e, loss)
  | .ok diff =>
    let loss := Mat.map tanh (Mat.map (fun x => self.a * x) diff)
    let loss := if !self.reduction then Mat.map (fun x => x / (target.n_elem : α)) loss else loss
    (.ok (), loss)

end LogCoshLoss

/-- The constructor `LogCoshLoss::LogCoshLoss` (the name of the structure is
taken): the members are initialised, then the body asserts `a > 0`; an instance
exists only when the body returns. -/
def LogCoshLoss.construct {α : Type} [LinearOrderedField α] (a : α) (reduction : Bool) :
    Except Error (LogCoshLoss α) :=
  let self : LogCoshLoss α := { a := a, reduction := reduction }
  match Log.Assert (decide (a > 0)) with
  | .error e => .error e
  | .ok () => .ok self

/-! ## CosineEmbeddingLoss -/

/-- The loop `for (size_t i = 0; i < n; i += cols)` shared by
`CosineEmbeddingLoss::Forward` and `CosineEmbeddingLoss::Backward`, started at
`i` with the loop-carried state `s`; `body i s` is the state after the iteration
at `i`.  It terminates because `cols` is positive. -/
def spanLoop {σ : Type} (cols n : Nat) (hc : 0 < cols) (body : Nat → σ → σ) (i : Nat) (s : σ) : σ :=
  if i < n then spanLoop cols n hc body (i + cols) (body i s) else s
termination_by n - i
decreasing_by omega

/-- The Euclidean norm `std::sqrt(arma::accu(arma::pow(v, 2)))`, which is also
`arma::norm(v, 2)`; `sqrt` is the scalar square root. -/
def norm2 {α : Type} [Field α] (sqrt : α → α) (v : List α) : α :=
  sqrt ((v.map (fun x => x ^ 2)).sum)

/-- The vector `arma::normalise(v)` of the array library: `v` divided by its
Euclidean norm, and by 1 when that norm is 0. -/
def normalise {α : Type} [Field α] [DecidableEq α] (sqrt : α → α) (v : List α) : List α :=
  let norm_val_a := norm2 sqrt v
  let norm_val_b := if norm_val_a ≠ 0 then norm_val_a else 1
  v.map (fun x => x / norm_val_b)

/-- The hyperparameters of `CosineEmbeddingLoss`. -/
structure CosineEmbeddingLoss (α : Type) where
  margin : α
  similarity : Bool
  reduction : Bool
  deriving DecidableEq, Repr

namespace CosineEmbeddingLoss

variable {α : Type} [LinearOrderedField α]

/-- The method `CosineEmbeddingLoss::Forward`; `Evaluate` is the cosine-distance
primitive `kernel::CosineDistance::Evaluate`.  With `reduction = false` the sum
is divided by `batchSize`; for a batch size of 0 the quotient is no number
(`nonFinite`). -/
def Forward (Evaluate : List α → List α → α) (self : CosineEmbeddingLoss α)
    (prediction target : Mat α) : Except Error α :=
  let cols := prediction.n_cols
  if hc : cols = 0 then .error .divisionByZero
  else
    let batchSize := prediction.n_elem / cols
    if prediction.size ≠ target.size then Log.Fatal
    else
      let inputTemp1 := Mat.vectorise prediction
      let inputTemp2 := Mat.vectorise target
      let lossSum : α :=
        spanLoop cols inputTemp1.n_elem (Nat.pos_of_ne_zero hc)
          (fun i lossSum =>
            let cosDist := Evaluate (span inputTemp1.mem i (i + cols - 1))
              (span inputTemp2.mem i (i + cols - 1))
            if self.similarity then lossSum + (1 - cosDist)
            else
              let currentLoss := cosDist - self.margin
              lossSum + (if currentLoss > 0 then currentLoss else 0))
          0 0
      if self.reduction then .ok lossSum
      else if batchSize = 0 then .error .nonFinite
      else .ok (lossSum / (batchSize : α))

/-- The method `CosineEmbeddingLoss::Backward`; `Evaluate` is the cosine-distance
primitive, `sqrt` the scalar square root, `uninit` what the memory of `loss`
holds after `set_size`.  `outputTemp` is a view of the memory of `loss`.  The
division by the norm of the prediction span is the division of the field: for a
zero span the source writes NaN or infinity, which the field does not have, so
the formula of the gradient is proved for non-zero prediction spans only. -/
def Backward (Evaluate : List α → List α → α) (sqrt : α → α) (self : CosineEmbeddingLoss α)
    (prediction target loss : Mat α) (uninit : Nat → α) : Except Error Unit × Mat α :=
  let cols := prediction.n_cols
  if hc : cols = 0 then (.error .divisionByZero, loss)
  else
    let batchSize := prediction.n_elem / cols
    if prediction.size ≠ target.size then (Log.Fatal, loss)
    else
      let inputTemp1 := Mat.vectorise prediction
      let inputTemp2 := Mat.vectorise target
      let loss := Mat.set_size loss inputTemp1.size uninit
      let outputTemp : List α :=
        spanLoop cols inputTemp1.n_elem (Nat.pos_of_ne_zero hc)
          (fun i outputTemp =>
            let cosDist := Evaluate (span inputTemp1.mem i (i + cols - 1))
              (span inputTemp2.mem i (i + cols - 1))
            let outputTemp :=
              if cosDist < self.margin && !self.similarity then
                setSpan outputTemp i (i + cols - 1) (List.replicate (i + cols - 1 + 1 - i) 0)
              else
                let multiplier : Int := if self.similarity then 1 else -1
                setSpan outputTemp i (i + cols - 1)
                  ((List.zipWith (fun t p => t - cosDist * p)
                      (normalise sqrt (span inputTemp2.mem i (i + cols - 1)))
                      (normalise sqrt (span inputTemp1.mem i (i + cols - 1)))).map
                    (fun x => ((-1 * multiplier : Int) : α) * x /
                      norm2 sqrt (span inputTemp1.mem i (i + cols - 1))))
            if !self.reduction then outputTemp.map (fun x => x / (batchSize : α))
            else outputTemp)
          0 loss.mem
      (.ok (), { n_rows := loss.n_rows, n_cols := loss.n_cols, mem := outputTemp })

end CosineEmbeddingLoss

/-- Modelled from the spec: the cosine-distance primitive
`kernel::CosineDistance::Evaluate` is not among the sources; the spec describes
it as "cosDist = 1 - cosine_similarity(a,b)" on two equal-length vectors, the
cosine similarity being the inner product over the product of the Euclidean
norms. -/
def CosineDistance.Evaluate {α : Type} [Field α] (sqrt : α → α) (a b : List α) : α :=
  1 - (List.zipWith (· * ·) a b).sum / (norm2 sqrt a * norm2 sqrt b)

/-- The vector that one iteration of the loop of `CosineEmbeddingLoss::Backward`
assigns to its span of `outputTemp`, given the spans `p` of the prediction and
`t` of the target (of `cols` elements each): the right-hand sides of the two
branches of the source. -/
def CosineEmbeddingLoss.segmentGradient {α : Type} [LinearOrderedField α]
    (Evaluate : List α → List α → α) (sqrt : α → α) (self : CosineEmbeddingLoss α)
    (cols : Nat) (p t : List α) : List α :=
  let cosDist := Evaluate p t
  if cosDist < self.margin && !self.similarity then List.replicate cols 0
  else
    let multiplier : Int := if self.similarity then 1 else -1
    (List.zipWith (fun t p => t - cosDist * p) (normalise sqrt t) (normalise sqrt p)).map
      (fun x => ((-1 * multiplier : Int) : α) * x / norm2 sqrt p)

/-- The amount that one iteration of the loop of `CosineEmbeddingLoss::Forward`
adds to `lossSum`, given the cosine distance `cosDist` of its pair of spans:
the two branches of the source. -/
def CosineEmbeddingLoss.pairLoss {α : Type} [LinearOrderedField α]
    (self : CosineEmbeddingLoss α) (cosDist : α) : α :=
  if self.similarity then 1 - cosDist
  else
    let currentLoss := cosDist - self.margin
    if currentLoss > 0 then currentLoss else 0

/-- The values that `i` takes in the loop `for (size_t i = 0; i < n; i += cols)`,
in order: the loop itself, with a body that records `i`. -/
def CosineEmbeddingLoss.loopIndices (cols n : Nat) (hc : 0 < cols) : List Nat :=
  spanLoop cols n hc (fun i visited => visited ++ [i]) 0 []

/-- The pairs of vectors that `CosineEmbeddingLoss::Forward` passes to
`kernel::CosineDistance::Evaluate`, in order: `Forward` with a loop body that
records the two arguments of the call. -/
def CosineEmbeddingLoss.evaluatedPairs {α : Type} (prediction target : Mat α) :
    Except Error (List (List α × List α)) :=
  let cols := prediction.n_cols
  if hc : cols = 0 then .error .divisionByZero
  else
    if prediction.size ≠ target.size then Log.Fatal
    else
      let inputTemp1 := Mat.vectorise prediction
      let inputTemp2 := Mat.vectorise target
      .ok (spanLoop cols inputTemp1.n_elem (Nat.pos_of_ne_zero hc)
        (fun i calls => calls ++ [(span inputTemp1.mem i (i + cols - 1),
          span inputTemp2.mem i (i + cols - 1))])
        0 [])

/-- The column `m.col(j)` of the array library: the memory is column-major, so
the element in row `i` of column `j` is at index `i + j * n_rows`. -/
def Mat.col {α : Type} (m : Mat α) (j : Nat) : List α :=
  (m.mem.drop (j * m.n_rows)).take m.n_rows

/-! ## Serialization -/

/-- A value stored in an archive of the serialization library. -/
inductive Value (α : Type) where
  | double (x : α)
  | bool (b : Bool)
  deriving DecidableEq, Repr

/-- An archive of the serialization library: an output archive (`loading` false)
collects name-value pairs in the order they are written, an input archive
(`loading` true) hands them back in that order. -/
structure Archive (α : Type) where
  loading : Bool
  nodes : List (String × Value α)

namespace Archive

variable {α : Type}

/-- The call `ar(CEREAL_NVP(x))` for a `double` member `x` named `name`: an
output archive appends the pair and leaves `x`; an input archive reads the next
pair, which must be a `double` of that name, into `x`. -/
def nvp_double (ar : Archive α) (name : String) (x : α) : Option (Archive α × α) :=
  if ar.loading then
    match ar.nodes with
    | (n, .double v) :: rest =>
      if n = name then some ({ loading := true, nodes := rest }, v) else none
    | _ => none
  else some ({ loading := false, nodes := ar.nodes ++ [(name, .double x)] }, x)

/-- The call `ar(CEREAL_NVP(x))` for a `bool` member `x` named `name`. -/
def nvp_bool (ar : Archive α) (name : String) (x : Bool) : Option (Archive α × Bool) :=
  if ar.loading then
    match ar.nodes with
    | (n, .bool v) :: rest =>
      if n = name then some ({ loading := true, nodes := rest }, v) else none
    | _ => none
  else some ({ loading := false, nodes := ar.nodes ++ [(name, .bool x)] }, x)

end Archive

/-- The method `CosineEmbeddingLoss::serialize`: the archive and the instance
after the three calls. -/
def CosineEmbeddingLoss.serialize {α : Type} (self : CosineEmbeddingLoss α) (ar : Archive α) :
    Option (Archive α × CosineEmbeddingLoss α) :=
  match ar.nvp_double "margin" self.margin with
  | none => none
  | some (ar, margin) =>
    match ar.nvp_bool "similarity" self.similarity with
    | none => none
    | some (ar, similarity) =>
      match ar.nvp_bool "reduction" self.reduction with
      | none => none
      | some (ar, reduction) =>
        some (ar, { margin := margin, similarity := similarity, reduction := reduction })

/-- The method `EarthMoverDistance::serialize`. -/
def EarthMoverDistance.serialize {α : Type} (self : EarthMoverDistance) (ar : Archive α) :
    Option (Archive α × EarthMoverDistance) :=
  match ar.nvp_bool "reduction" self.reduction with
  | none => none
  | some (ar, reduction) => some (ar, { reduction := reduction })

/-- The method `HingeEmbeddingLoss::serialize`. -/
def HingeEmbeddingLoss.serialize {α : Type} (self : HingeEmbeddingLoss) (ar : Archive α) :
    Option (Archive α × HingeEmbeddingLoss) :=
  match ar.nvp_bool "reduction" self.reduction with
  | none => none
  | some (ar, reduction) => some (ar, { reduction := reduction })

/-- The method `KLDivergence::serialize`. -/
def KLDivergence.serialize {α : Type} (self : KLDivergence) (ar : Archive α) :
    Option (Archive α × KLDivergence) :=
  match ar.nvp_bool "reduction" self.reduction with
  | none => none
  | some (ar, reduction) => some (ar, { reduction := reduction })

/-- The method `LogCoshLoss::serialize`. -/
def LogCoshLoss.serialize {α : Type} (self : LogCoshLoss α) (ar : Archive α) :
    Option (Archive α × LogCoshLoss α) :=
  match ar.nvp_double "a" self.a with
  | none => none
  | some (ar, a) =>
    match ar.nvp_bool "reduction" self.reduction with
    | none => none
    | some (ar, reduction) => some (ar, { a := a, reduction := reduction })

/-! # Theorems -/

section helpers

variable {α : Type}

theorem Mat.zipWith_of_size_eq (f : α → α → α) (x y : Mat α) (h : x.size = y.size) :
    Mat.zipWith f x y =
      .ok { n_rows := x.n_rows, n_cols := x.n_cols, mem := List.zipWith f x.mem y.mem } := by
  simp [Mat.zipWith, h]

theorem Mat.zipWith_of_size_ne (f : α → α → α) (x y : Mat α) (h : x.size ≠ y.size) :
    Mat.zipWith f x y = .error .incompatibleDimensions := by
  simp [Mat.zipWith, h]

theorem Mat.n_elem_eq_of_size_eq (x y : Mat α) (h : x.size = y.size) : x.n_elem = y.n_elem := by
  simp only [Mat.size, Prod.mk.injEq] at h
  simp [Mat.n_elem, h.1, h.2]

theorem Mat.n_cols_ne_zero_of_n_elem_ne_zero (x : Mat α) (h : x.n_elem ≠ 0) : x.n_cols ≠ 0 := by
  intro h0
  exact h (by simp [Mat.n_elem, h0])

theorem Mat.size_eq_iff (x y : Mat α) :
    x.size = y.size ↔ x.n_rows = y.n_rows ∧ x.n_cols = y.n_cols := by
  simp [Mat.size]

end helpers

section closedForms

variable {α : Type} [Field α]

/-- On arrays of one size `EarthMoverDistance::Forward` returns the sum, and
the mean when the arrays are not empty. -/
theorem emd_Forward_eq (self : EarthMoverDistance) (p t : Mat α)
    (h : p.size = t.size) :
    EarthMoverDistance.Forward self p t =
      if self.reduction then .ok (-(List.zipWith (· * ·) t.mem p.mem).sum)
      else if t.n_elem = 0 then .error .nonFinite
      else .ok (-(List.zipWith (· * ·) t.mem p.mem).sum / (t.n_elem : α)) := by
  obtain ⟨hr, hc⟩ := (Mat.size_eq_iff p t).1 h
  cases hred : self.reduction <;>
    simp [EarthMoverDistance.Forward, Mat.zipWith, Mat.size, Mat.accu, hr, hc, hred]

/-- On arrays of one size `HingeEmbeddingLoss::Forward` returns the sum, and
the mean when the arrays are not empty. -/
theorem hinge_Forward_eq (self : HingeEmbeddingLoss) (p t : Mat α)
    (h : p.size = t.size) :
    HingeEmbeddingLoss.Forward self p t =
      if self.reduction then
        .ok (List.zipWith (· + ·) (t.mem.map (fun x => (1 - x) / 2))
          (List.zipWith (· * ·) p.mem t.mem)).sum
      else if t.n_elem = 0 then .error .nonFinite
      else
        .ok ((List.zipWith (· + ·) (t.mem.map (fun x => (1 - x) / 2))
          (List.zipWith (· * ·) p.mem t.mem)).sum / (t.n_elem : α)) := by
  obtain ⟨hr, hc⟩ := (Mat.size_eq_iff p t).1 h
  cases hred : self.reduction <;>
    simp [HingeEmbeddingLoss.Forward, Mat.zipWith, Mat.size, Mat.accu, Mat.map, hr, hc, hred,
      Function.comp_def]

/-- On arrays of one size `KLDivergence::Forward` returns the sum, and the mean
when the arrays are not empty. -/
theorem kl_Forward_eq (log : α → α) (self : KLDivergence) (p t : Mat α)
    (h : p.size = t.size) :
    KLDivergence.Forward log self p t =
      if self.reduction then
        .ok (List.zipWith (· * ·) t.mem (List.zipWith (· - ·) (t.mem.map log) p.mem)).sum
      else if t.n_elem = 0 then .error .nonFinite
      else
        .ok ((List.zipWith (· * ·) t.mem (List.zipWith (· - ·) (t.mem.map log) p.mem)).sum /
          (t.n_elem : α)) := by
  obtain ⟨hr, hc⟩ := (Mat.size_eq_iff p t).1 h
  cases hred : self.reduction <;>
    simp [KLDivergence.Forward, Mat.zipWith, Mat.size, Mat.accu, Mat.map, hr, hc, hred]

/-- On arrays of one size `LogCoshLoss::Forward` returns the sum, and the mean
when the arrays are not empty. -/
theorem logcosh_Forward_eq (log cosh : α → α) (self : LogCoshLoss α) (p t : Mat α)
    (h : p.size = t.size) :
    LogCoshLoss.Forward log cosh self p t =
      if self.reduction then
        .ok (((List.zipWith (· - ·) t.mem p.mem).map
          (fun x => log (cosh (self.a * x)))).sum / self.a)
      else if t.n_elem = 0 then .error .nonFinite
      else
        .ok (((List.zipWith (· - ·) t.mem p.mem).map
          (fun x => log (cosh (self.a * x)))).sum / self.a / (t.n_elem : α)) := by
  obtain ⟨hr, hc⟩ := (Mat.size_eq_iff p t).1 h
  cases hred : self.reduction <;>
    simp [LogCoshLoss.Forward, Mat.zipWith, Mat.size, Mat.accu, Mat.map, hr, hc, hred,
      Function.comp_def]

/-- Where the mean is a number (`reduction` true or a non-empty array),
`EarthMoverDistance::Forward` returns it. -/
theorem emd_Forward_ok (self : EarthMoverDistance) (p t : Mat α) (h : p.size = t.size)
    (hne : self.reduction = true ∨ t.n_elem ≠ 0) :
    EarthMoverDistance.Forward self p t =
      .ok (if self.reduction then -(List.zipWith (· * ·) t.mem p.mem).sum
        else -(List.zipWith (· * ·) t.mem p.mem).sum / (t.n_elem : α)) := by
  rw [emd_Forward_eq self p t h]
  rcases hne with hr | hn
  · simp [hr]
  · cases self.reduction <;> simp [hn]

/-- Where the mean is a number, `HingeEmbeddingLoss::Forward` returns it. -/
theorem hinge_Forward_ok (self : HingeEmbeddingLoss) (p t : Mat α) (h : p.size = t.size)
    (hne : self.reduction = true ∨ t.n_elem ≠ 0) :
    HingeEmbeddingLoss.Forward self p t =
      .ok (if self.reduction then
          (List.zipWith (· + ·) (t.mem.map (fun x => (1 - x) / 2))
            (List.zipWith (· * ·) p.mem t.mem)).sum
        else
          (List.zipWith (· + ·) (t.mem.map (fun x => (1 - x) / 2))
            (List.zipWith (· * ·) p.mem t.mem)).sum / (t.n_elem : α)) := by
  rw [hinge_Forward_eq self p t h]
  rcases hne with hr | hn
  · simp [hr]
  · cases self.reduction <;> simp [hn]

/-- Where the mean is a number, `KLDivergence::Forward` returns it. -/
theorem kl_Forward_ok (log : α → α) (self : KLDivergence) (p t : Mat α) (h : p.size = t.size)
    (hne : self.reduction = true ∨ t.n_elem ≠ 0) :
    KLDivergence.Forward log self p t =
      .ok (if self.reduction then
          (List.zipWith (· * ·) t.mem (List.zipWith (· - ·) (t.mem.map log) p.mem)).sum
        else
          (List.zipWith (· * ·) t.mem (List.zipWith (· - ·) (t.mem.map log) p.mem)).sum /
            (t.n_elem : α)) := by
  rw [kl_Forward_eq log self p t h]
  rcases hne with hr | hn
  · simp [hr]
  · cases self.reduction <;> simp [hn]

/-- Where the mean is a number, `LogCoshLoss::Forward` returns it. -/
theorem logcosh_Forward_ok (log cosh : α → α) (self : LogCoshLoss α) (p t : Mat α)
    (h : p.size = t.size) (hne : self.reduction = true ∨ t.n_elem ≠ 0) :
    LogCoshLoss.Forward log cosh self p t =
      .ok (if self.reduction then
          ((List.zipWith (· - ·) t.mem p.mem).map (fun x => log (cosh (self.a * x)))).sum / self.a
        else
          ((List.zipWith (· - ·) t.mem p.mem).map (fun x => log (cosh (self.a * x)))).sum /
            self.a / (t.n_elem : α)) := by
  rw [logcosh_Forward_eq log cosh self p t h]
  rcases hne with hr | hn
  · simp [hr]
  · cases self.reduction <;> simp [hn]

end closedForms

section loop

variable {α : Type}

theorem setSpan_length (s w : List α) (i c : Nat) (hc : 0 < c) (hw : w.length = c)
    (hi : i + c ≤ s.length) : (setSpan s i (i + c - 1) w).length = s.length := by
  simp only [setSpan, List.length_append, List.length_take, List.length_drop, hw]
  omega

theorem setSpan_take (s w : List α) (i c : Nat) (hc : 0 < c) (hw : w.length = c)
    (hi : i + c ≤ s.length) : (setSpan s i (i + c - 1) w).take (i + c) = s.take i ++ w := by
  unfold setSpan
  apply List.take_left'
  simp only [List.length_append, List.length_take, hw]
  omega

/-- The loop of `CosineEmbeddingLoss::Backward` in closed form: when every
iteration overwrites its span by `g i` and then maps `d` over the whole vector,
the segment written at iteration `j` of `r` ends up with `d` applied `r - j`
times. -/
theorem spanLoop_setSpan_map (c r : Nat) (hc : 0 < c) (g : Nat → List α) (d : α → α)
    (hg : ∀ j, j < r → (g (j * c)).length = c) :
    ∀ (m k : Nat), k + m = r → ∀ s : List α, s.length = r * c →
      spanLoop c (r * c) hc (fun i s => (setSpan s i (i + c - 1) (g i)).map d) (k * c) s =
        (s.take (k * c)).map d^[m] ++
          (List.range' k m).flatMap (fun j => (g (j * c)).map d^[r - j]) := by
  intro m
  induction m with
  | zero =>
    intro k hk s hs
    have hkr : k = r := by omega
    subst hkr
    rw [spanLoop]
    simp [← hs]
  | succ m ih =>
    intro k hk s hs
    have hkr : k < r := by omega
    have hlt : k * c < r * c := Nat.mul_lt_mul_of_pos_right hkr hc
    have hle : k * c + c ≤ s.length := by
      have : (k + 1) * c ≤ r * c := Nat.mul_le_mul_right c hkr
      rw [hs]; linarith [Nat.succ_mul k c]
    have hstep : k * c + c = (k + 1) * c := (Nat.succ_mul k c).symm
    have hlen : (List.map d (setSpan s (k * c) (k * c + c - 1) (g (k * c)))).length = r * c := by
      rw [List.length_map, setSpan_length _ _ _ _ hc (hg k hkr) hle, hs]
    have key := ih (k + 1) (by omega) _ hlen
    rw [← hstep] at key
    rw [spanLoop, if_pos hlt, key, List.range'_succ, List.flatMap_cons, ← List.map_take,
      setSpan_take _ _ _ _ hc (hg k hkr) hle]
    have hrk : r - k = m + 1 := by omega
    simp [hrk, Function.iterate_succ, List.append_assoc]

theorem span_length (v : List α) (i c : Nat) (hc : 0 < c) (hi : i + c ≤ v.length) :
    (span v i (i + c - 1)).length = c := by
  simp only [span, List.length_take, List.length_drop]
  omega

theorem length_flatMap_range (c : Nat) (f : Nat → List α) :
    ∀ r, (∀ j, j < r → (f j).length = c) → ((List.range r).flatMap f).length = r * c := by
  intro r
  induction r with
  | zero => intro _; simp
  | succ r ih =>
    intro h
    rw [List.range_succ, List.flatMap_append, List.length_append,
      ih (fun j hj => h j (Nat.lt_succ_of_lt hj))]
    simp [h r (Nat.lt_succ_self r), Nat.succ_mul]

/-- The `k`-th span of a concatenation of `r` segments of `c` elements is the
`k`-th segment. -/
theorem span_flatMap_range (c : Nat) (hc : 0 < c) (f : Nat → List α) :
    ∀ r, (∀ j, j < r → (f j).length = c) → ∀ k, k < r →
      span ((List.range r).flatMap f) (k * c) (k * c + c - 1) = f k := by
  intro r
  induction r with
  | zero => intro _ k hk; omega
  | succ r ih =>
    intro h k hk
    have hlen := length_flatMap_range c f r (fun j hj => h j (Nat.lt_succ_of_lt hj))
    have hz : k * c + c - 1 + 1 - k * c = c := by omega
    rw [List.range_succ, List.flatMap_append]
    simp only [List.flatMap_cons, List.flatMap_nil, List.append_nil]
    unfold span
    rw [hz]
    rcases Nat.lt_succ_iff_lt_or_eq.1 hk with hlt | heq
    · have hkc : k * c + c ≤ r * c := by
        have : (k + 1) * c ≤ r * c := Nat.mul_le_mul_right c hlt
        linarith [Nat.succ_mul k c]
      have := ih (fun j hj => h j (Nat.lt_succ_of_lt hj)) k hlt
      unfold span at this
      rw [hz] at this
      rw [List.drop_append_of_le_length (by omega), List.take_append_of_le_length, this]
      rw [List.length_drop, hlen]
      omega
    · subst heq
      rw [List.drop_append_eq_append_drop, hlen, List.drop_eq_nil_of_le (le_of_eq hlen),
        Nat.sub_self, List.drop_zero, List.nil_append, ← h k (Nat.lt_succ_self k), List.take_length]

end loop

section cosine

variable {α : Type} [LinearOrderedField α]

theorem normalise_length (sqrt : α → α) (v : List α) : (normalise sqrt v).length = v.length := by
  simp [normalise]

theorem segmentGradient_length (Evaluate : List α → List α → α) (sqrt : α → α)
    (self : CosineEmbeddingLoss α) (c : Nat) (p t : List α) (hp : p.length = c)
    (ht : t.length = c) :
    (CosineEmbeddingLoss.segmentGradient Evaluate sqrt self c p t).length = c := by
  unfold CosineEmbeddingLoss.segmentGradient
  simp only []
  split_ifs <;> simp [normalise_length, hp, ht]

/-- The method `CosineEmbeddingLoss::Backward` in closed form, on well-formed arrays of one
size with at least one column: it returns, `loss` is the column vector made of
one segment per row index `k`, the segment being `segmentGradient` of the `k`-th
spans divided `n_rows - k` times by the batch size when `reduction` is false. -/
theorem cosine_Backward_eq (Evaluate : List α → List α → α) (sqrt : α → α)
    (self : CosineEmbeddingLoss α) (p t loss : Mat α) (uninit : Nat → α)
    (hc : p.n_cols ≠ 0) (hsize : p.size = t.size) (hp : p.wf) (ht : t.wf) :
    CosineEmbeddingLoss.Backward Evaluate sqrt self p t loss uninit =
      (.ok (),
        { n_rows := p.n_elem, n_cols := 1,
          mem := (List.range p.n_rows).flatMap (fun k =>
            (CosineEmbeddingLoss.segmentGradient Evaluate sqrt self p.n_cols
              (span p.mem (k * p.n_cols) (k * p.n_cols + p.n_cols - 1))
              (span t.mem (k * p.n_cols) (k * p.n_cols + p.n_cols - 1))).map
              (fun x => x / ((p.n_elem / p.n_cols : ℕ) : α))^[if self.reduction then 0
                else p.n_rows - k]) }) := by
  obtain ⟨hr, hcc⟩ := (Mat.size_eq_iff p t).1 hsize
  have hpos : 0 < p.n_cols := Nat.pos_of_ne_zero hc
  have hlp : p.mem.length = p.n_rows * p.n_cols := hp
  have hlt : t.mem.length = p.n_rows * p.n_cols := by rw [hr, hcc]; exact ht
  have hbody : (fun (i : Nat) (outputTemp : List α) =>
      let cosDist := Evaluate (span (Mat.vectorise p).mem i (i + p.n_cols - 1))
        (span (Mat.vectorise t).mem i (i + p.n_cols - 1))
      let outputTemp :=
        if cosDist < self.margin && !self.similarity then
          setSpan outputTemp i (i + p.n_cols - 1)
            (List.replicate (i + p.n_cols - 1 + 1 - i) 0)
        else
          let multiplier : Int := if self.similarity then 1 else -1
          setSpan outputTemp i (i + p.n_cols - 1)
            ((List.zipWith (fun t p => t - cosDist * p)
                (normalise sqrt (span (Mat.vectorise t).mem i (i + p.n_cols - 1)))
                (normalise sqrt (span (Mat.vectorise p).mem i (i + p.n_cols - 1)))).map
              (fun x => ((-1 * multiplier : Int) : α) * x /
                norm2 sqrt (span (Mat.vectorise p).mem i (i + p.n_cols - 1))))
      if !self.reduction then outputTemp.map (fun x => x / ((p.n_elem / p.n_cols : ℕ) : α))
      else outputTemp) =
      (fun (i : Nat) (s : List α) =>
        (setSpan s i (i + p.n_cols - 1)
          (CosineEmbeddingLoss.segmentGradient Evaluate sqrt self p.n_cols
            (span p.mem i (i + p.n_cols - 1)) (span t.mem i (i + p.n_cols - 1)))).map
          (if self.reduction then id else fun x => x / ((p.n_elem / p.n_cols : ℕ) : α))) := by
    funext i s
    have hz : i + p.n_cols - 1 + 1 - i = p.n_cols := by omega
    simp only [CosineEmbeddingLoss.segmentGradient, Mat.vectorise, hz]
    cases self.reduction <;>
      simp only [Bool.not_false, Bool.not_true, Bool.false_eq_true, ↓reduceIte] <;>
      split_ifs <;> simp
  have hg : ∀ j, j < p.n_rows →
      (CosineEmbeddingLoss.segmentGradient Evaluate sqrt self p.n_cols
        (span p.mem (j * p.n_cols) (j * p.n_cols + p.n_cols - 1))
        (span t.mem (j * p.n_cols) (j * p.n_cols + p.n_cols - 1))).length = p.n_cols := by
    intro j hj
    have hle : j * p.n_cols + p.n_cols ≤ p.n_rows * p.n_cols := by
      have : (j + 1) * p.n_cols ≤ p.n_rows * p.n_cols := Nat.mul_le_mul_right _ hj
      linarith [Nat.succ_mul j p.n_cols]
    exact segmentGradient_length _ _ _ _ _ _
      (span_length _ _ _ hpos (by rw [hlp]; exact hle))
      (span_length _ _ _ hpos (by rw [hlt]; exact hle))
  have hloop := spanLoop_setSpan_map p.n_cols p.n_rows hpos
    (fun i => CosineEmbeddingLoss.segmentGradient Evaluate sqrt self p.n_cols
      (span p.mem i (i + p.n_cols - 1)) (span t.mem i (i + p.n_cols - 1)))
    (if self.reduction then id else fun x => x / ((p.n_elem / p.n_cols : ℕ) : α))
    hg p.n_rows 0 (by omega) ((List.range (p.n_rows * p.n_cols)).map uninit) (by simp)
  simp only [Nat.zero_mul, List.take_zero, List.map_nil, List.nil_append,
    ← List.range_eq_range'] at hloop
  unfold CosineEmbeddingLoss.Backward
  simp only [hc, hsize, dite_false, ne_eq, not_true_eq_false, ite_false]
  rw [hbody]
  simp only [Mat.set_size, Mat.vectorise, Mat.size, Nat.mul_one]
  simp only [Mat.n_elem, Nat.mul_one] at hloop ⊢
  rw [hloop]
  cases self.reduction <;> simp

end cosine

/-! ## Mean versus sum (C1) -/

/-- C2, as stated, fails for the Backward of EarthMoverDistance (and likewise
of HingeEmbeddingLoss and KLDivergence): with a 2 x 3 prediction and a 3 x 2
target it does not fail and writes the gradient -target. -/
theorem C2_counterexample :
    ({ n_rows := 2, n_cols := 3, mem := [1, 2, 3, 4, 5, 6] } : Mat ℚ).size ≠
      ({ n_rows := 3, n_cols := 2, mem := [1, 2, 3, 4, 5, 6] } : Mat ℚ).size ∧
    EarthMoverDistance.Backward { reduction := true }
        ({ n_rows := 2, n_cols := 3, mem := [1, 2, 3, 4, 5, 6] } : Mat ℚ)
        { n_rows := 3, n_cols := 2, mem := [1, 2, 3, 4, 5, 6] }
        { n_rows := 0, n_cols := 0, mem := [] } =
      (.ok (), { n_rows := 3, n_cols := 2, mem := [-1, -2, -3, -4, -5, -6] }) := by
  constructor
  · decide
  · simp [EarthMoverDistance.Backward, Mat.map]

/-- C2, amended: when the shapes of prediction and target differ, Forward of
EarthMoverDistance, HingeEmbeddingLoss, KLDivergence and LogCoshLoss and
Backward of LogCoshLoss are refused by the element-wise operations of the array
library, with no result and `loss` unchanged; Forward and Backward of
CosineEmbeddingLoss on a prediction with at least one column fail with the
fatal shape-mismatch error, `loss` unchanged; Backward of EarthMoverDistance,
HingeEmbeddingLoss and KLDivergence does not read the prediction, does not fail
and writes the gradient computed from target alone, of the shape of target:
-target, target and -target, each divided by the element count of target when
reduction = false, whatever the prediction. -/
theorem C2_shape_mismatch {α : Type} [LinearOrderedField α]
    (log cosh tanh sqrt : α → α) (Evaluate : List α → List α → α) (a margin : α)
    (similarity reduction : Bool) (p t loss : Mat α) (uninit : Nat → α)
    (h : p.size ≠ t.size) :
    EarthMoverDistance.Forward { reduction := reduction } p t =
      .error .incompatibleDimensions ∧
    HingeEmbeddingLoss.Forward { reduction := reduction } p t =
      .error .incompatibleDimensions ∧
    KLDivergence.Forward log { reduction := reduction } p t =
      .error .incompatibleDimensions ∧
    LogCoshLoss.Forward log cosh { a := a, reduction := reduction } p t =
      .error .incompatibleDimensions ∧
    LogCoshLoss.Backward tanh { a := a, reduction := reduction } p t loss =
      (.error .incompatibleDimensions, loss) ∧
    (p.n_cols ≠ 0 →
      CosineEmbeddingLoss.Forward Evaluate
          { margin := margin, similarity := similarity, reduction := reduction } p t =
        .error .fatal ∧
      CosineEmbeddingLoss.Backward Evaluate sqrt
          { margin := margin, similarity := similarity, reduction := reduction } p t loss
          uninit =
        (.error .fatal, loss)) ∧
    (EarthMoverDistance.Backward { reduction := reduction } p t loss =
        (.ok (), { n_rows := t.n_rows, n_cols := t.n_cols,
                   mem := if reduction then t.mem.map (fun x => -x)
                     else t.mem.map (fun x => -x / (t.n_elem : α)) }) ∧
      (EarthMoverDistance.Backward { reduction := reduction } p t loss).2.size = t.size ∧
      ∀ p' : Mat α, EarthMoverDistance.Backward { reduction := reduction } p' t loss =
        EarthMoverDistance.Backward { reduction := reduction } p t loss) ∧
    (HingeEmbeddingLoss.Backward { reduction := reduction } p t loss =
        (.ok (), { n_rows := t.n_rows, n_cols := t.n_cols,
                   mem := if reduction then t.mem
                     else t.mem.map (fun x => x / (t.n_elem : α)) }) ∧
      (HingeEmbeddingLoss.Backward { reduction := reduction } p t loss).2.size = t.size ∧
      ∀ p' : Mat α, HingeEmbeddingLoss.Backward { reduction := reduction } p' t loss =
        HingeEmbeddingLoss.Backward { reduction := reduction } p t loss) ∧
    (KLDivergence.Backward { reduction := reduction } p t loss =
        (.ok (), { n_rows := t.n_rows, n_cols := t.n_cols,
                   mem := if reduction then t.mem.map (fun x => -x)
                     else t.mem.map (fun x => -x / (t.n_elem : α)) }) ∧
      (KLDivergence.Backward { reduction := reduction } p t loss).2.size = t.size ∧
      ∀ p' : Mat α, KLDivergence.Backward { reduction := reduction } p' t loss =
        KLDivergence.Backward { reduction := reduction } p t loss) := by
  have h1 : t.size ≠ p.size := fun e => h e.symm
  have h2 : (Mat.map log t).size ≠ p.size := h1
  refine ⟨?_, ?_, ?_, ?_, ?_, ?_, ?_, ?_, ?_⟩
  · simp [EarthMoverDistance.Forward, Mat.zipWith_of_size_ne _ t p h1]
  · simp [HingeEmbeddingLoss.Forward, Mat.zipWith_of_size_ne _ p t h]
  · simp [KLDivergence.Forward, Mat.zipWith_of_size_ne _ _ p h2]
  · simp [LogCoshLoss.Forward, Mat.zipWith_of_size_ne _ t p h1]
  · simp [LogCoshLoss.Backward, Mat.zipWith_of_size_ne _ t p h1]
  · intro hc
    constructor
    · simp [CosineEmbeddingLoss.Forward, Log.Fatal, hc, h]
    · simp [CosineEmbeddingLoss.Backward, Log.Fatal, hc, h]
  · refine ⟨?_, ?_, fun _ => rfl⟩ <;>
      cases reduction <;>
      simp [EarthMoverDistance.Backward, Mat.map, Mat.size, Function.comp_def]
  · refine ⟨?_, ?_, fun _ => rfl⟩ <;>
      cases reduction <;>
      simp [HingeEmbeddingLoss.Backward, Mat.map, Mat.size]
  · refine ⟨?_, ?_, fun _ => rfl⟩ <;>
      cases reduction <;>
      simp [KLDivergence.Backward, Mat.map, Mat.size, Function.comp_def]

/-- C2, amended, at the input of the spec: a 2 x 3 prediction and a 3 x 2
target; Forward of CosineEmbeddingLoss fails with the fatal error. -/
theorem C2_shape_mismatch_witness :
    ({ n_rows := 2, n_cols := 3, mem := [1, 2, 3, 4, 5, 6] } : Mat ℝ).size ≠
      ({ n_rows := 3, n_cols := 2, mem := [1, 2, 3, 4, 5, 6] } : Mat ℝ).size ∧
    CosineEmbeddingLoss.Forward (CosineDistance.Evaluate Real.sqrt)
        { margin := 0, similarity := true, reduction := false }
        { n_rows := 2, n_cols := 3, mem := [1, 2, 3, 4, 5, 6] }
        { n_rows := 3, n_cols := 2, mem := [1, 2, 3, 4, 5, 6] } = .error .fatal :=
  ⟨by decide,
    ((C2_shape_mismatch Real.log Real.cosh Real.tanh Real.sqrt
      (CosineDistance.Evaluate Real.sqrt) 1 0 true false
      { n_rows := 2, n_cols := 3, mem := [1, 2, 3, 4, 5, 6] }
      { n_rows := 3, n_cols := 2, mem := [1, 2, 3, 4, 5, 6] }
      { n_rows := 0, n_cols := 0, mem := [] } (fun _ => 0) (by decide)).2.2.2.2.2.1
      (by decide)).1⟩

/-! ## CosineEmbeddingLoss.Backward and the batch size (C3) -/

theorem iterate_div {α : Type} [Field α] (b : α) (j : Nat) (x : α) :
    (fun x => x / b)^[j] x = x / b ^ j := by
  induction j generalizing x with
  | zero => simp
  | succ j ih => rw [Function.iterate_succ_apply, ih, pow_succ, div_div, mul_comm]

/-- What `CosineEmbeddingLoss::Backward` does with reduction = false, for every
input: the segment written at iteration `k` of the `n_rows` iterations is the
segment of reduction = true divided by the batch size `n_rows - k` times, since
the division of the whole vector stands inside the loop. -/
theorem cosine_Backward_mean_segment {α : Type} [LinearOrderedField α]
    (Evaluate : List α → List α → α) (sqrt : α → α) (margin : α) (similarity : Bool)
    (p t loss : Mat α) (uninit : Nat → α)
    (hc : p.n_cols ≠ 0) (hsize : p.size = t.size) (hp : p.wf) (ht : t.wf)
    (k : Nat) (hk : k < p.n_rows) :
    span (CosineEmbeddingLoss.Backward Evaluate sqrt
        { margin := margin, similarity := similarity, reduction := false }
        p t loss uninit).2.mem (k * p.n_cols) (k * p.n_cols + p.n_cols - 1) =
      (span (CosineEmbeddingLoss.Backward Evaluate sqrt
        { margin := margin, similarity := similarity, reduction := true }
        p t loss uninit).2.mem (k * p.n_cols) (k * p.n_cols + p.n_cols - 1)).map
        (fun x => x / ((p.n_elem / p.n_cols : ℕ) : α) ^ (p.n_rows - k)) := by
  have hpos : 0 < p.n_cols := Nat.pos_of_ne_zero hc
  obtain ⟨hr, hcc⟩ := (Mat.size_eq_iff p t).1 hsize
  have hle : ∀ j, j < p.n_rows → j * p.n_cols + p.n_cols ≤ p.n_rows * p.n_cols := by
    intro j hj
    have : (j + 1) * p.n_cols ≤ p.n_rows * p.n_cols := Nat.mul_le_mul_right _ hj
    linarith [Nat.succ_mul j p.n_cols]
  have hg : ∀ (self : CosineEmbeddingLoss α) (j : Nat), j < p.n_rows →
      (CosineEmbeddingLoss.segmentGradient Evaluate sqrt self p.n_cols
        (span p.mem (j * p.n_cols) (j * p.n_cols + p.n_cols - 1))
        (span t.mem (j * p.n_cols) (j * p.n_cols + p.n_cols - 1))).length = p.n_cols := by
    intro self j hj
    exact segmentGradient_length _ _ _ _ _ _
      (span_length _ _ _ hpos (by rw [hp]; exact hle j hj))
      (span_length _ _ _ hpos (by rw [ht, ← hr, ← hcc]; exact hle j hj))
  rw [cosine_Backward_eq _ _ _ _ _ _ _ hc hsize hp ht,
    cosine_Backward_eq _ _ _ _ _ _ _ hc hsize hp ht]
  simp only [Bool.false_eq_true, if_false, if_true]
  rw [span_flatMap_range p.n_cols hpos _ p.n_rows
      (fun j hj => by rw [List.length_map]; exact hg _ j hj) k hk,
    span_flatMap_range p.n_cols hpos _ p.n_rows
      (fun j hj => by rw [List.length_map]; exact hg _ j hj) k hk]
  simp [CosineEmbeddingLoss.segmentGradient, iterate_div, Function.comp_def]

/-- C3, the code at the failing input: prediction the 2 x 2 identity, target
the 2 x 2 exchange matrix, similarity = true, batch size 2.  With
reduction = true the gradient is (1, -1, -1, 1); with reduction = false it is
(1/4, -1/4, -1/2, 1/2): the first segment is divided by the batch size twice,
only the last one once. -/
theorem C3_backward_divides_in_loop (loss : Mat ℝ) (uninit : Nat → ℝ) :
    ({ n_rows := 2, n_cols := 2, mem := [1, 0, 0, 1] } : Mat ℝ).n_elem /
        ({ n_rows := 2, n_cols := 2, mem := [1, 0, 0, 1] } : Mat ℝ).n_cols = 2 ∧
    CosineEmbeddingLoss.Backward (CosineDistance.Evaluate Real.sqrt) Real.sqrt
        { margin := 0, similarity := true, reduction := true }
        { n_rows := 2, n_cols := 2, mem := [1, 0, 0, 1] }
        { n_rows := 2, n_cols := 2, mem := [0, 1, 1, 0] } loss uninit =
      (.ok (), { n_rows := 4, n_cols := 1, mem := [1, -1, -1, 1] }) ∧
    CosineEmbeddingLoss.Backward (CosineDistance.Evaluate Real.sqrt) Real.sqrt
        { margin := 0, similarity := true, reduction := false }
        { n_rows := 2, n_cols := 2, mem := [1, 0, 0, 1] }
        { n_rows := 2, n_cols := 2, mem := [0, 1, 1, 0] } loss uninit =
      (.ok (), { n_rows := 4, n_cols := 1, mem := [1 / 4, -1 / 4, -1 / 2, 1 / 2] }) := by
  refine ⟨by simp [Mat.n_elem], ?_, ?_⟩
  · simp [CosineEmbeddingLoss.Backward, Mat.size, Mat.vectorise, Mat.n_elem, Mat.set_size,
      spanLoop, span, setSpan, CosineDistance.Evaluate, norm2, normalise, List.range_succ]
  · simp [CosineEmbeddingLoss.Backward, Mat.size, Mat.vectorise, Mat.n_elem, Mat.set_size,
      spanLoop, span, setSpan, CosineDistance.Evaluate, norm2, normalise, List.range_succ]
    norm_num

/-! ## Shape of the gradient (C4) -/

/-- C4, as stated, fails for CosineEmbeddingLoss: for a 2 x 2 prediction and
target Backward returns normally and the gradient it leaves in `loss` is a
4 x 1 column vector, not a 2 x 2 array. -/
theorem C4_counterexample :
    (CosineEmbeddingLoss.Backward (CosineDistance.Evaluate Real.sqrt) Real.sqrt
        { margin := 0, similarity := true, reduction := true }
        { n_rows := 2, n_cols := 2, mem := [1, 0, 0, 1] }
        { n_rows := 2, n_cols := 2, mem := [0, 1, 1, 0] }
        { n_rows := 0, n_cols := 0, mem := [] } (fun _ => 0)).1 = .ok () ∧
    (CosineEmbeddingLoss.Backward (CosineDistance.Evaluate Real.sqrt) Real.sqrt
        { margin := 0, similarity := true, reduction := true }
        { n_rows := 2, n_cols := 2, mem := [1, 0, 0, 1] }
        { n_rows := 2, n_cols := 2, mem := [0, 1, 1, 0] }
        { n_rows := 0, n_cols := 0, mem := [] } (fun _ => 0)).2.size = (4, 1) ∧
    ({ n_rows := 2, n_cols := 2, mem := [1, 0, 0, 1] } : Mat ℝ).size = (2, 2) := by
  refine ⟨?_, ?_, rfl⟩
  · simp [CosineEmbeddingLoss.Backward, Mat.size]
  · simp [CosineEmbeddingLoss.Backward, Mat.size, Mat.set_size, Mat.vectorise, Mat.n_elem]

/-- C4, amended: for every prediction and target of the same shape, Backward of
EarthMoverDistance, HingeEmbeddingLoss, KLDivergence and LogCoshLoss returns and
leaves in `loss` a gradient of the shape of prediction; Backward of
CosineEmbeddingLoss (prediction with at least one column) returns and leaves a
column vector of n_elem rows and 1 column, which has the element count of
prediction and not its shape. -/
theorem C4_gradient_shape {α : Type} [LinearOrderedField α]
    (tanh sqrt : α → α) (Evaluate : List α → List α → α) (a margin : α)
    (similarity reduction : Bool) (p t loss : Mat α) (uninit : Nat → α)
    (hsize : p.size = t.size) :
    ((EarthMoverDistance.Backward { reduction := reduction } p t loss).1 = .ok () ∧
      (EarthMoverDistance.Backward { reduction := reduction } p t loss).2.size = p.size) ∧
    ((HingeEmbeddingLoss.Backward { reduction := reduction } p t loss).1 = .ok () ∧
      (HingeEmbeddingLoss.Backward { reduction := reduction } p t loss).2.size = p.size) ∧
    ((KLDivergence.Backward { reduction := reduction } p t loss).1 = .ok () ∧
      (KLDivergence.Backward { reduction := reduction } p t loss).2.size = p.size) ∧
    ((LogCoshLoss.Backward tanh { a := a, reduction := reduction } p t loss).1 = .ok () ∧
      (LogCoshLoss.Backward tanh { a := a, reduction := reduction } p t loss).2.size =
        p.size) ∧
    (p.n_cols ≠ 0 →
      (CosineEmbeddingLoss.Backward Evaluate sqrt
        { margin := margin, similarity := similarity, reduction := reduction }
        p t loss uninit).1 = .ok () ∧
      (CosineEmbeddingLoss.Backward Evaluate sqrt
        { margin := margin, similarity := similarity, reduction := reduction }
        p t loss uninit).2.size = (p.n_elem, 1)) := by
  obtain ⟨hr, hc⟩ := (Mat.size_eq_iff p t).1 hsize
  refine ⟨?_, ?_, ?_, ?_, ?_⟩
  · cases reduction <;> simp [EarthMoverDistance.Backward, Mat.map, Mat.size, hr, hc]
  · cases reduction <;> simp [HingeEmbeddingLoss.Backward, Mat.map, Mat.size, hr, hc]
  · cases reduction <;> simp [KLDivergence.Backward, Mat.map, Mat.size, hr, hc]
  · cases reduction <;>
      simp [LogCoshLoss.Backward, Mat.zipWith, Mat.map, Mat.size, hr, hc]
  · intro h0
    constructor
    · simp [CosineEmbeddingLoss.Backward, h0, hsize]
    · unfold CosineEmbeddingLoss.Backward
      simp only [h0, hsize, dite_false, ne_eq, not_true_eq_false, ite_false]
      simp [Mat.size, Mat.set_size, Mat.vectorise]

/-- C4, amended, at a concrete input: a 2 x 3 prediction and target over the
reals; the CosineEmbeddingLoss gradient is 6 x 1. -/
theorem C4_gradient_shape_witness :
    ({ n_rows := 2, n_cols := 3, mem := [1, 2, 3, 4, 5, 6] } : Mat ℝ).size =
      ({ n_rows := 2, n_cols := 3, mem := [6, 5, 4, 3, 2, 1] } : Mat ℝ).size ∧
    (CosineEmbeddingLoss.Backward (CosineDistance.Evaluate Real.sqrt) Real.sqrt
        { margin := 0, similarity := true, reduction := false }
        { n_rows := 2, n_cols := 3, mem := [1, 2, 3, 4, 5, 6] }
        { n_rows := 2, n_cols := 3, mem := [6, 5, 4, 3, 2, 1] }
        { n_rows := 0, n_cols := 0, mem := [] } (fun _ => 0)).2.size =
      (({ n_rows := 2, n_cols := 3, mem := [1, 2, 3, 4, 5, 6] } : Mat ℝ).n_elem, 1) :=
  ⟨by decide,
    ((C4_gradient_shape Real.tanh Real.sqrt (CosineDistance.Evaluate Real.sqrt) 1 0 true false
      { n_rows := 2, n_cols := 3, mem := [1, 2, 3, 4, 5, 6] }
      { n_rows := 2, n_cols := 3, mem := [6, 5, 4, 3, 2, 1] }
      { n_rows := 0, n_cols := 0, mem := [] } (fun _ => 0) (by decide)).2.2.2.2
      (by decide)).2⟩

/-! ## LogCoshLoss.Backward against the gradient of Forward (C5) -/

theorem hasDerivAt_sum_zipWith_set (φ : ℝ → ℝ → ℝ) :
    ∀ (p t : List ℝ) (i : Nat) (pi ti d : ℝ), p[i]? = some pi → t[i]? = some ti →
      HasDerivAt (fun x => φ ti x) d pi →
      HasDerivAt (fun x => (List.zipWith φ t (p.set i x)).sum) d pi := by
  intro p
  induction p with
  | nil => intro t i pi ti d hp; simp at hp
  | cons p0 ps ih =>
    intro t i pi ti d hp ht hd
    cases t with
    | nil => simp at ht
    | cons t0 ts =>
      cases i with
      | zero =>
        simp only [List.getElem?_cons_zero, Option.some.injEq] at hp ht
        subst hp ht
        simpa using hd.add_const (List.zipWith φ ts ps).sum
      | succ i =>
        simp only [List.getElem?_cons_succ] at hp ht
        simpa using (ih ts i pi ti d hp ht hd).const_add (φ t0 p0)

theorem hasDerivAt_log_cosh (a t x : ℝ) :
    HasDerivAt (fun x => Real.log (Real.cosh (a * (t - x)))) (-a * Real.tanh (a * (t - x))) x := by
  have h1 : HasDerivAt (fun x : ℝ => a * (t - x)) (a * (0 - 1)) x :=
    ((hasDerivAt_const x t).sub (hasDerivAt_id x)).const_mul a
  have h2 := (Real.hasDerivAt_cosh (a * (t - x))).comp x h1
  have h3 := h2.log (ne_of_gt (Real.cosh_pos _))
  convert h3 using 1
  rw [Real.tanh_eq_sinh_div_cosh]
  simp only [Function.comp]
  ring

/-- What `LogCoshLoss::Backward` writes, for every input: the `i`-th element of
the gradient is the negative of the partial derivative of `Forward` in the
`i`-th element of the prediction. -/
theorem logcosh_Backward_neg_gradient (a : ℝ) (ha : a ≠ 0) (reduction : Bool)
    (p t loss : Mat ℝ) (hsize : p.size = t.size) (hp : p.wf) (ht : t.wf)
    (i : Nat) (hi : i < p.n_elem) :
    ∃ (F : ℝ → ℝ) (g : Mat ℝ) (gi pi : ℝ),
      (∀ x, LogCoshLoss.Forward Real.log Real.cosh { a := a, reduction := reduction }
        { n_rows := p.n_rows, n_cols := p.n_cols, mem := p.mem.set i x } t = .ok (F x)) ∧
      LogCoshLoss.Backward Real.tanh { a := a, reduction := reduction } p t loss = (.ok (), g) ∧
      g.mem[i]? = some gi ∧ p.mem[i]? = some pi ∧ HasDerivAt F (-gi) pi := by
  obtain ⟨hr, hc⟩ := (Mat.size_eq_iff p t).1 hsize
  have hlp : i < p.mem.length := by rw [hp]; exact hi
  have hlt : i < t.mem.length := by rw [ht, ← hr, ← hc]; exact hi
  have hpi : p.mem[i]? = some p.mem[i] := List.getElem?_eq_getElem hlp
  have hti : t.mem[i]? = some t.mem[i] := List.getElem?_eq_getElem hlt
  have hS := hasDerivAt_sum_zipWith_set (fun tj pj => Real.log (Real.cosh (a * (tj - pj))))
    p.mem t.mem i p.mem[i] t.mem[i] _ hpi hti (hasDerivAt_log_cosh a t.mem[i] p.mem[i])
  have hF : ∀ x, LogCoshLoss.Forward Real.log Real.cosh { a := a, reduction := reduction }
      { n_rows := p.n_rows, n_cols := p.n_cols, mem := p.mem.set i x } t =
      .ok (if reduction then
          (List.zipWith (fun tj pj => Real.log (Real.cosh (a * (tj - pj)))) t.mem
            (p.mem.set i x)).sum / a
        else
          (List.zipWith (fun tj pj => Real.log (Real.cosh (a * (tj - pj)))) t.mem
            (p.mem.set i x)).sum / a / (t.n_elem : ℝ)) := by
    intro x
    have ht0 : t.n_elem ≠ 0 := by
      rw [← Mat.n_elem_eq_of_size_eq p t hsize]
      exact Nat.not_eq_zero_of_lt hi
    rw [logcosh_Forward_eq _ _ _ _ t (by simp [Mat.size, hr, hc])]
    cases reduction <;> simp [List.map_zipWith, ht0]
  cases reduction with
  | true =>
    refine ⟨_, Mat.map Real.tanh (Mat.map (fun x => a * x)
      { n_rows := t.n_rows, n_cols := t.n_cols, mem := List.zipWith (· - ·) t.mem p.mem }),
      Real.tanh (a * (t.mem[i] - p.mem[i])), p.mem[i], hF, ?_, ?_, hpi, ?_⟩
    · simp [LogCoshLoss.Backward, Mat.zipWith, Mat.size, hr, hc]
    · simp [Mat.map, List.getElem?_zipWith, hpi, hti]
    · simp only [if_true]
      convert hS.div_const a using 1
      field_simp
      ring
  | false =>
    refine ⟨_, Mat.map (fun x => x / (t.n_elem : ℝ)) (Mat.map Real.tanh (Mat.map (fun x => a * x)
      { n_rows := t.n_rows, n_cols := t.n_cols, mem := List.zipWith (· - ·) t.mem p.mem })),
      Real.tanh (a * (t.mem[i] - p.mem[i])) / (t.n_elem : ℝ), p.mem[i], hF, ?_, ?_, hpi, ?_⟩
    · simp [LogCoshLoss.Backward, Mat.zipWith, Mat.size, hr, hc]
    · simp [Mat.map, List.getElem?_zipWith, hpi, hti]
    · simp only [Bool.false_eq_true, if_false]
      convert (hS.div_const a).div_const (t.n_elem : ℝ) using 1
      field_simp
      rw [neg_div, neg_div, mul_div_mul_left _ _ ha]

theorem tanh_one_ne_neg : Real.tanh 1 ≠ -Real.tanh 1 := by
  have h : 0 < Real.tanh 1 := by
    rw [Real.tanh_eq_sinh_div_cosh]
    exact div_pos (Real.sinh_pos_iff.2 one_pos) (Real.cosh_pos 1)
  intro e
  linarith

/-- C5, the code at the failing input: a = 1, reduction = true, prediction the
1 x 1 array (0), target the 1 x 1 array (1).  Forward, as a function of the
prediction element x, is log(cosh(1 * (1 - x))) / 1, whose derivative at 0 is
-tanh 1; Backward writes tanh 1, which is a different number. -/
theorem C5_backward_is_negated_gradient (loss : Mat ℝ) :
    (∀ x : ℝ, LogCoshLoss.Forward Real.log Real.cosh { a := 1, reduction := true }
        { n_rows := 1, n_cols := 1, mem := [x] } { n_rows := 1, n_cols := 1, mem := [1] } =
      .ok (Real.log (Real.cosh (1 * (1 - x))) / 1)) ∧
    HasDerivAt (fun x : ℝ => Real.log (Real.cosh (1 * (1 - x))) / 1) (-Real.tanh 1) 0 ∧
    LogCoshLoss.Backward Real.tanh { a := 1, reduction := true }
        { n_rows := 1, n_cols := 1, mem := [0] } { n_rows := 1, n_cols := 1, mem := [1] } loss =
      (.ok (), { n_rows := 1, n_cols := 1, mem := [Real.tanh 1] }) ∧
    Real.tanh 1 ≠ -Real.tanh 1 := by
  refine ⟨?_, ?_, ?_, tanh_one_ne_neg⟩
  · intro x
    simp [LogCoshLoss.Forward, Mat.zipWith, Mat.size, Mat.map, Mat.accu]
  · have h := (hasDerivAt_log_cosh 1 1 0).div_const 1
    simpa using h
  · simp [LogCoshLoss.Backward, Mat.zipWith, Mat.size, Mat.map]

/-! ## The losses that are affine in the prediction (C6) -/

section affine

variable {α : Type} [Field α]

theorem zipWith_add_map_mul (h : α → α) :
    ∀ (t p : List α), List.zipWith (· + ·) (t.map h) (List.zipWith (· * ·) p t) =
      List.zipWith (fun t p => h t + p * t) t p := by
  intro t
  induction t with
  | nil => intro p; simp
  | cons t0 ts ih => intro p; cases p <;> simp [ih]

theorem zipWith_mul_sub_map (log : α → α) :
    ∀ (t p : List α), List.zipWith (· * ·) t (List.zipWith (· - ·) (t.map log) p) =
      List.zipWith (fun t p => t * (log t - p)) t p := by
  intro t
  induction t with
  | nil => intro p; simp
  | cons t0 ts ih => intro p; cases p <;> simp [ih]

/-- A sum that is affine in every prediction element changes by the sum of the
slopes times the changes of the elements. -/
theorem sum_zipWith_sub (F : α → α → α) (G : α → α)
    (hF : ∀ a b c, F a c - F a b = G a * (c - b)) :
    ∀ (t p p' : List α), p.length = t.length → p'.length = t.length →
      (List.zipWith F t p').sum - (List.zipWith F t p).sum =
        (List.zipWith (· * ·) (t.map G) (List.zipWith (· - ·) p' p)).sum := by
  intro t
  induction t with
  | nil => intro p p' _ _; simp
  | cons t0 ts ih =>
    intro p p' hp hp'
    cases p with
    | nil => simp at hp
    | cons p0 ps =>
      cases p' with
      | nil => simp at hp'
      | cons q0 qs =>
        simp only [List.length_cons, Nat.add_right_cancel_iff] at hp hp'
        simp only [List.zipWith_cons_cons, List.sum_cons, List.map_cons]
        rw [← ih ps qs hp hp', ← hF t0 p0 q0]
        ring

theorem sum_zipWith_map_div (n : α) :
    ∀ (l d : List α), (List.zipWith (· * ·) (l.map (fun x => x / n)) d).sum =
      (List.zipWith (· * ·) l d).sum / n := by
  intro l
  induction l with
  | nil => intro d; simp
  | cons x xs ih =>
    intro d
    cases d with
    | nil => simp
    | cons y ys =>
      simp only [List.map_cons, List.zipWith_cons_cons, List.sum_cons, ih]
      ring

theorem sum_zipWith_neg :
    ∀ (l : List α), -(l.sum) = (l.map (fun x => -x)).sum := by
  intro l
  induction l with
  | nil => simp
  | cons x xs ih => simp only [List.sum_cons, List.map_cons, ← ih]; ring

end affine

/-- C6, as stated, fails on empty arrays with reduction = false: for the empty
0 x 0 prediction and target, Forward of EarthMoverDistance divides the sum by
the element count 0 and returns no number, so there is no difference of
Forward values to compare with the gradient. -/
theorem C6_counterexample :
    ({ n_rows := 0, n_cols := 0, mem := [] } : Mat ℚ).wf ∧
    EarthMoverDistance.Forward { reduction := false }
        ({ n_rows := 0, n_cols := 0, mem := [] } : Mat ℚ)
        { n_rows := 0, n_cols := 0, mem := [] } = .error .nonFinite ∧
    ¬ ∃ f : ℚ, EarthMoverDistance.Forward { reduction := false }
        ({ n_rows := 0, n_cols := 0, mem := [] } : Mat ℚ)
        { n_rows := 0, n_cols := 0, mem := [] } = .ok f := by
  refine ⟨by decide, ?_, ?_⟩
  · simp [EarthMoverDistance.Forward, Mat.zipWith, Mat.size, Mat.n_elem]
  · simp [EarthMoverDistance.Forward, Mat.zipWith, Mat.size, Mat.n_elem]

/-- C6, amended: for EarthMoverDistance, HingeEmbeddingLoss and KLDivergence
(the last with a target of strictly positive entries, where its logarithm is
defined), every target t, every two predictions p and p' of the shape of t,
and either reduction setting, the arrays being non-empty when reduction =
false, Forward and Backward return and Forward(p', t) - Forward(p, t) is the
sum over all elements of Backward(p, t)[i] * (p'[i] - p[i]). -/
theorem C6_backward_is_exact_gradient {α : Type} [LinearOrderedField α] (log : α → α)
    (reduction : Bool) (p p' t loss : Mat α) (hp : p.size = t.size) (hp' : p'.size = t.size)
    (wp : p.wf) (wp' : p'.wf) (wt : t.wf) (hne : reduction = true ∨ t.n_elem ≠ 0) :
    (∃ f f' g, EarthMoverDistance.Forward { reduction := reduction } p t = .ok f ∧
      EarthMoverDistance.Forward { reduction := reduction } p' t = .ok f' ∧
      EarthMoverDistance.Backward { reduction := reduction } p t loss = (.ok (), g) ∧
      f' - f = (List.zipWith (· * ·) g.mem (List.zipWith (· - ·) p'.mem p.mem)).sum) ∧
    (∃ f f' g, HingeEmbeddingLoss.Forward { reduction := reduction } p t = .ok f ∧
      HingeEmbeddingLoss.Forward { reduction := reduction } p' t = .ok f' ∧
      HingeEmbeddingLoss.Backward { reduction := reduction } p t loss = (.ok (), g) ∧
      f' - f = (List.zipWith (· * ·) g.mem (List.zipWith (· - ·) p'.mem p.mem)).sum) ∧
    ((∀ x ∈ t.mem, 0 < x) →
      ∃ f f' g, KLDivergence.Forward log { reduction := reduction } p t = .ok f ∧
        KLDivergence.Forward log { reduction := reduction } p' t = .ok f' ∧
        KLDivergence.Backward { reduction := reduction } p t loss = (.ok (), g) ∧
        f' - f = (List.zipWith (· * ·) g.mem (List.zipWith (· - ·) p'.mem p.mem)).sum) := by
  have hlen : p.mem.length = t.mem.length := by
    rw [wp, wt, ((Mat.size_eq_iff p t).1 hp).1, ((Mat.size_eq_iff p t).1 hp).2]
  have hlen' : p'.mem.length = t.mem.length := by
    rw [wp', wt, ((Mat.size_eq_iff p' t).1 hp').1, ((Mat.size_eq_iff p' t).1 hp').2]
  have hE := sum_zipWith_sub (fun a b : α => -(a * b)) (fun a => -a)
    (fun a b c => by ring) t.mem p.mem p'.mem hlen hlen'
  have hH : (List.zipWith (fun a b : α => (1 - a) / 2 + b * a) t.mem p'.mem).sum -
      (List.zipWith (fun a b : α => (1 - a) / 2 + b * a) t.mem p.mem).sum =
      (List.zipWith (· * ·) t.mem (List.zipWith (· - ·) p'.mem p.mem)).sum := by
    simpa using sum_zipWith_sub (fun a b : α => (1 - a) / 2 + b * a) (fun a => a)
      (fun a b c => by ring) t.mem p.mem p'.mem hlen hlen'
  have hK := sum_zipWith_sub (fun a b : α => a * (log a - b)) (fun a => -a)
    (fun a b c => by ring) t.mem p.mem p'.mem hlen hlen'
  refine ⟨⟨_, _, _, emd_Forward_ok _ p t hp hne, emd_Forward_ok _ p' t hp' hne, rfl, ?_⟩,
    ⟨_, _, _, hinge_Forward_ok _ p t hp hne, hinge_Forward_ok _ p' t hp' hne, rfl, ?_⟩,
    fun _ => ⟨_, _, _, kl_Forward_ok log _ p t hp hne, kl_Forward_ok log _ p' t hp' hne,
      rfl, ?_⟩⟩
  · have e : ∀ q : List α, -(List.zipWith (· * ·) t.mem q).sum =
        (List.zipWith (fun a b : α => -(a * b)) t.mem q).sum := by
      intro q; rw [sum_zipWith_neg, List.map_zipWith]
    cases reduction
    · simp only [Bool.false_eq_true, if_false, Bool.not_false, if_true, Mat.map,
        sum_zipWith_map_div, ← hE, e]
      ring
    · simp only [if_true, Bool.not_true, Bool.false_eq_true, if_false, Mat.map, ← hE, e]
  · cases reduction
    · simp only [Bool.false_eq_true, if_false, Bool.not_false, if_true, Mat.map,
        sum_zipWith_map_div, zipWith_add_map_mul, ← hH]
      ring
    · simp only [if_true, Bool.not_true, Bool.false_eq_true, if_false, zipWith_add_map_mul,
        ← hH]
  · cases reduction
    · simp only [Bool.false_eq_true, if_false, Bool.not_false, if_true, Mat.map,
        sum_zipWith_map_div, zipWith_mul_sub_map, ← hK]
      ring
    · simp only [if_true, Bool.not_true, Bool.false_eq_true, if_false, Mat.map,
        zipWith_mul_sub_map, ← hK]

/-- C6, amended, at a concrete input: 1 x 2 predictions (0, 1) and (2, 3) and
the positive target (1, 1) over the reals, for KLDivergence with reduction =
false. -/
theorem C6_backward_is_exact_gradient_witness :
    (({ n_rows := 1, n_cols := 2, mem := [0, 1] } : Mat ℝ).size =
        ({ n_rows := 1, n_cols := 2, mem := [1, 1] } : Mat ℝ).size ∧
      ({ n_rows := 1, n_cols := 2, mem := [2, 3] } : Mat ℝ).size =
        ({ n_rows := 1, n_cols := 2, mem := [1, 1] } : Mat ℝ).size ∧
      ({ n_rows := 1, n_cols := 2, mem := [0, 1] } : Mat ℝ).wf ∧
      ({ n_rows := 1, n_cols := 2, mem := [2, 3] } : Mat ℝ).wf ∧
      ({ n_rows := 1, n_cols := 2, mem := [1, 1] } : Mat ℝ).wf ∧
      (false = true ∨ ({ n_rows := 1, n_cols := 2, mem := [1, 1] } : Mat ℝ).n_elem ≠ 0) ∧
      ∀ x ∈ ({ n_rows := 1, n_cols := 2, mem := [1, 1] } : Mat ℝ).mem, 0 < x) ∧
    ∃ f f' g,
      KLDivergence.Forward Real.log { reduction := false }
        ({ n_rows := 1, n_cols := 2, mem := [0, 1] } : Mat ℝ)
        { n_rows := 1, n_cols := 2, mem := [1, 1] } = .ok f ∧
      KLDivergence.Forward Real.log { reduction := false }
        ({ n_rows := 1, n_cols := 2, mem := [2, 3] } : Mat ℝ)
        { n_rows := 1, n_cols := 2, mem := [1, 1] } = .ok f' ∧
      KLDivergence.Backward { reduction := false }
        ({ n_rows := 1, n_cols := 2, mem := [0, 1] } : Mat ℝ)
        { n_rows := 1, n_cols := 2, mem := [1, 1] }
        { n_rows := 0, n_cols := 0, mem := [] } = (.ok (), g) ∧
      f' - f = (List.zipWith (· * ·) g.mem (List.zipWith (· - ·) [2, 3] [0, 1])).sum :=
  have hpos : ∀ x ∈ ({ n_rows := 1, n_cols := 2, mem := [1, 1] } : Mat ℝ).mem, 0 < x := by
    intro x hx
    simp only [List.mem_cons, List.mem_singleton, List.not_mem_nil, or_false, or_self] at hx
    rw [hx]
    exact one_pos
  ⟨⟨by decide, by decide, by decide, by decide, by decide, Or.inr (by decide), hpos⟩,
    (C6_backward_is_exact_gradient Real.log false
      ({ n_rows := 1, n_cols := 2, mem := [0, 1] } : Mat ℝ)
      { n_rows := 1, n_cols := 2, mem := [2, 3] }
      { n_rows := 1, n_cols := 2, mem := [1, 1] }
      { n_rows := 0, n_cols := 0, mem := [] }
      (by decide) (by decide) (by decide) (by decide) (by decide) (Or.inr (by decide))).2.2
      hpos⟩

/-! ## EarthMoverDistance (C7) and HingeEmbeddingLoss (C8) -/

theorem zipWith_mul_comm {α : Type} [Field α] :
    ∀ (x y : List α), List.zipWith (· * ·) x y = List.zipWith (· * ·) y x := by
  intro x
  induction x with
  | nil => intro y; simp
  | cons a as ih => intro y; cases y <;> simp [ih, mul_comm]

/-- C7: for every prediction p and target t of the same shape, Forward of
EarthMoverDistance with reduction = true returns -sum(p[i] * t[i]); for every
prediction, Backward writes -t when reduction = true and -t divided by the
element count when reduction = false, so that any two predictions give the same
gradient. -/
theorem C7_earth_mover_distance {α : Type} [Field α] (reduction : Bool)
    (p p' t loss : Mat α) (h : p.size = t.size) :
    EarthMoverDistance.Forward { reduction := true } p t =
      .ok (-(List.zipWith (· * ·) p.mem t.mem).sum) ∧
    EarthMoverDistance.Backward { reduction := true } p t loss =
      (.ok (), { n_rows := t.n_rows, n_cols := t.n_cols, mem := t.mem.map (fun x => -x) }) ∧
    EarthMoverDistance.Backward { reduction := false } p t loss =
      (.ok (), { n_rows := t.n_rows, n_cols := t.n_cols,
                 mem := t.mem.map (fun x => -x / (t.n_elem : α)) }) ∧
    EarthMoverDistance.Backward { reduction := reduction } p' t loss =
      EarthMoverDistance.Backward { reduction := reduction } p t loss := by
  refine ⟨?_, ?_, ?_, rfl⟩
  · rw [emd_Forward_eq _ p t h, zipWith_mul_comm]
    simp
  · simp [EarthMoverDistance.Backward, Mat.map]
  · simp [EarthMoverDistance.Backward, Mat.map, Function.comp_def]

/-- C7 at a concrete input: a 1 x 2 prediction (1, 2) and target (3, 4), for
which Forward returns -(1 * 3 + 2 * 4). -/
theorem C7_earth_mover_distance_witness :
    ({ n_rows := 1, n_cols := 2, mem := [1, 2] } : Mat ℚ).size =
      ({ n_rows := 1, n_cols := 2, mem := [3, 4] } : Mat ℚ).size ∧
    EarthMoverDistance.Forward { reduction := true }
        ({ n_rows := 1, n_cols := 2, mem := [1, 2] } : Mat ℚ)
        { n_rows := 1, n_cols := 2, mem := [3, 4] } =
      .ok (-(List.zipWith (· * ·) [(1 : ℚ), 2] [3, 4]).sum) :=
  ⟨by decide,
    (C7_earth_mover_distance true
      ({ n_rows := 1, n_cols := 2, mem := [1, 2] } : Mat ℚ)
      { n_rows := 1, n_cols := 2, mem := [1, 2] }
      { n_rows := 1, n_cols := 2, mem := [3, 4] }
      { n_rows := 0, n_cols := 0, mem := [] } (by decide)).1⟩

/-- C8: for every prediction and target, Backward of HingeEmbeddingLoss writes
target when reduction = true and target divided by the element count when
reduction = false; for a fixed target any two predictions give the same
gradient. -/
theorem C8_hinge_embedding_backward {α : Type} [Field α] (reduction : Bool)
    (p p' t loss : Mat α) :
    HingeEmbeddingLoss.Backward { reduction := true } p t loss = (.ok (), t) ∧
    HingeEmbeddingLoss.Backward { reduction := false } p t loss =
      (.ok (), { n_rows := t.n_rows, n_cols := t.n_cols,
                 mem := t.mem.map (fun x => x / (t.n_elem : α)) }) ∧
    HingeEmbeddingLoss.Backward { reduction := reduction } p' t loss =
      HingeEmbeddingLoss.Backward { reduction := reduction } p t loss := by
  refine ⟨?_, ?_, rfl⟩
  · simp [HingeEmbeddingLoss.Backward]
  · simp [HingeEmbeddingLoss.Backward, Mat.map]

/-! ## Zeros of KLDivergence (C9) and LogCoshLoss (C10) -/

theorem sum_zipWith_exp_log :
    ∀ (p : List ℝ), (List.zipWith (fun t p => t * (Real.log t - p)) (p.map Real.exp) p).sum = 0 := by
  intro p
  induction p with
  | nil => simp
  | cons x xs ih => simp [ih]

theorem sum_map_zipWith_sub_self (f : ℝ → ℝ) (hf : f 0 = 0) :
    ∀ (p : List ℝ), ((List.zipWith (· - ·) p p).map f).sum = 0 := by
  intro p
  induction p with
  | nil => simp
  | cons x xs ih => simp [ih, hf]

/-- C9, as stated, fails on the empty array with reduction = false: for the
empty 0 x 0 prediction, whose element-wise exponential is the empty target,
Forward of KLDivergence divides the sum 0 by the element count 0 and does not
return 0. -/
theorem C9_counterexample :
    KLDivergence.Forward Real.log { reduction := false }
        ({ n_rows := 0, n_cols := 0, mem := [] } : Mat ℝ)
        (Mat.map Real.exp ({ n_rows := 0, n_cols := 0, mem := [] } : Mat ℝ)) =
      .error .nonFinite ∧
    KLDivergence.Forward Real.log { reduction := false }
        ({ n_rows := 0, n_cols := 0, mem := [] } : Mat ℝ)
        (Mat.map Real.exp ({ n_rows := 0, n_cols := 0, mem := [] } : Mat ℝ)) ≠ .ok 0 := by
  constructor <;>
    simp [KLDivergence.Forward, Mat.zipWith, Mat.size, Mat.map, Mat.n_elem]

/-- C9, amended: for every prediction p, non-empty when reduction = false, with
target the element-wise exponential of p, Forward of KLDivergence returns 0. -/
theorem C9_kl_divergence_zero (reduction : Bool) (p : Mat ℝ)
    (hne : reduction = true ∨ p.n_elem ≠ 0) :
    KLDivergence.Forward Real.log { reduction := reduction } p (Mat.map Real.exp p) = .ok 0 := by
  rw [kl_Forward_ok Real.log _ p (Mat.map Real.exp p) rfl hne, zipWith_mul_sub_map]
  simp [Mat.map, sum_zipWith_exp_log]

/-- C9, amended, at a concrete input: the 1 x 2 prediction (0, 1) with
reduction = false. -/
theorem C9_kl_divergence_zero_witness :
    (false = true ∨ ({ n_rows := 1, n_cols := 2, mem := [0, 1] } : Mat ℝ).n_elem ≠ 0) ∧
    KLDivergence.Forward Real.log { reduction := false }
        { n_rows := 1, n_cols := 2, mem := [0, 1] }
        (Mat.map Real.exp { n_rows := 1, n_cols := 2, mem := [0, 1] }) = .ok 0 :=
  ⟨Or.inr (by decide),
    C9_kl_divergence_zero false { n_rows := 1, n_cols := 2, mem := [0, 1] }
      (Or.inr (by decide))⟩

/-- C10, as stated, fails on the empty array with reduction = false: for the
empty 0 x 0 array p and a = 1, Forward(p, p) of LogCoshLoss divides the sum 0
by the element count 0 and does not return 0. -/
theorem C10_counterexample :
    (0 : ℝ) < 1 ∧
    LogCoshLoss.Forward Real.log Real.cosh { a := 1, reduction := false }
        ({ n_rows := 0, n_cols := 0, mem := [] } : Mat ℝ)
        { n_rows := 0, n_cols := 0, mem := [] } = .error .nonFinite ∧
    LogCoshLoss.Forward Real.log Real.cosh { a := 1, reduction := false }
        ({ n_rows := 0, n_cols := 0, mem := [] } : Mat ℝ)
        { n_rows := 0, n_cols := 0, mem := [] } ≠ .ok 0 := by
  refine ⟨one_pos, ?_, ?_⟩ <;>
    simp [LogCoshLoss.Forward, Mat.zipWith, Mat.size, Mat.map, Mat.n_elem]

/-- C10, amended: for every a > 0 and every array p, non-empty when reduction =
false, Forward(p, p) of LogCoshLoss returns 0. -/
theorem C10_log_cosh_zero (a : ℝ) (ha : 0 < a) (reduction : Bool) (p : Mat ℝ)
    (hne : reduction = true ∨ p.n_elem ≠ 0) :
    LogCoshLoss.Forward Real.log Real.cosh { a := a, reduction := reduction } p p = .ok 0 := by
  have _ := ha
  rw [logcosh_Forward_ok Real.log Real.cosh _ p p rfl hne]
  simp [sum_map_zipWith_sub_self (fun x => Real.log (Real.cosh (a * x))) (by simp)]

/-- C10, amended, at a concrete input: a = 1 and the 1 x 2 array (3, 4) with
reduction = false. -/
theorem C10_log_cosh_zero_witness :
    ((0 : ℝ) < 1 ∧
      (false = true ∨ ({ n_rows := 1, n_cols := 2, mem := [3, 4] } : Mat ℝ).n_elem ≠ 0)) ∧
    LogCoshLoss.Forward Real.log Real.cosh { a := 1, reduction := false }
      { n_rows := 1, n_cols := 2, mem := [3, 4] } { n_rows := 1, n_cols := 2, mem := [3, 4] } =
      .ok 0 :=
  ⟨⟨one_pos, Or.inr (by decide)⟩,
    C10_log_cosh_zero 1 one_pos false { n_rows := 1, n_cols := 2, mem := [3, 4] }
      (Or.inr (by decide))⟩

/-! ## The loop of CosineEmbeddingLoss as a fold over its iterations -/

section loopFold

variable {σ : Type}

/-- The loop over a vector of `r * c` elements runs its body at
`k * c, (k + 1) * c, ..., (r - 1) * c`, in this order, and then stops. -/
theorem spanLoop_eq_foldl (c r : Nat) (hc : 0 < c) (body : Nat → σ → σ) :
    ∀ (m k : Nat), k + m = r → ∀ s : σ,
      spanLoop c (r * c) hc body (k * c) s =
        (List.range' k m).foldl (fun s j => body (j * c) s) s := by
  intro m
  induction m with
  | zero =>
    intro k hk s
    have hkr : k = r := by omega
    subst hkr
    rw [spanLoop]
    simp
  | succ m ih =>
    intro k hk s
    have hkr : k < r := by omega
    have hlt : k * c < r * c := Nat.mul_lt_mul_of_pos_right hkr hc
    have hstep : k * c + c = (k + 1) * c := (Nat.succ_mul k c).symm
    rw [spanLoop, if_pos hlt, hstep, ih (k + 1) (by omega), List.range'_succ, List.foldl_cons]

theorem foldl_append_singleton {β : Type} (f : Nat → β) :
    ∀ (l : List Nat) (acc : List β),
      l.foldl (fun acc j => acc ++ [f j]) acc = acc ++ l.map f := by
  intro l
  induction l with
  | nil => intro acc; simp
  | cons x xs ih => intro acc; simp [ih]

theorem foldl_add {α : Type} [AddCommMonoid α] (f : Nat → α) :
    ∀ (l : List Nat) (s : α), l.foldl (fun s j => s + f j) s = s + (l.map f).sum := by
  intro l
  induction l with
  | nil => intro s; simp
  | cons x xs ih => intro s; simp [ih, add_assoc]

theorem loopIndices_eq (c r : Nat) (hc : 0 < c) :
    CosineEmbeddingLoss.loopIndices c (r * c) hc = (List.range r).map (fun k => k * c) := by
  unfold CosineEmbeddingLoss.loopIndices
  have h := spanLoop_eq_foldl c r hc (fun i visited => visited ++ [i]) r 0 (by omega) []
  simp only [Nat.zero_mul] at h
  rw [h, foldl_append_singleton (fun j => j * c), List.nil_append, List.range_eq_range']

/-- The pairs passed to the cosine-distance primitive, in closed form: the
`k`-th of the `n_rows` pairs holds the elements `k * n_cols, ...,
k * n_cols + n_cols - 1` of the vectorised prediction and target. -/
theorem evaluatedPairs_eq {α : Type} (p t : Mat α) (hc : p.n_cols ≠ 0) (hsize : p.size = t.size) :
    CosineEmbeddingLoss.evaluatedPairs p t =
      .ok ((List.range p.n_rows).map (fun k =>
        (span p.mem (k * p.n_cols) (k * p.n_cols + p.n_cols - 1),
          span t.mem (k * p.n_cols) (k * p.n_cols + p.n_cols - 1)))) := by
  have hpos : 0 < p.n_cols := Nat.pos_of_ne_zero hc
  have hloop := spanLoop_eq_foldl p.n_cols p.n_rows hpos
    (fun (i : Nat) (calls : List (List α × List α)) =>
      calls ++ [(span p.mem i (i + p.n_cols - 1), span t.mem i (i + p.n_cols - 1))])
    p.n_rows 0 (by omega) []
  simp only [Nat.zero_mul] at hloop
  rw [foldl_append_singleton (fun j =>
      (span p.mem (j * p.n_cols) (j * p.n_cols + p.n_cols - 1),
        span t.mem (j * p.n_cols) (j * p.n_cols + p.n_cols - 1))),
    List.nil_append, ← List.range_eq_range'] at hloop
  unfold CosineEmbeddingLoss.evaluatedPairs
  simp only [hc, hsize, dite_false, ne_eq, not_true_eq_false, ite_false]
  simp only [Mat.vectorise, Mat.n_elem, Nat.mul_one] at hloop ⊢
  rw [hloop]

end loopFold

section cosineForward

variable {α : Type} [LinearOrderedField α]

/-- The method `CosineEmbeddingLoss::Forward` in closed form, on arrays of one
size with at least one column: it returns the sum of `pairLoss` over the
`n_rows` pairs of spans, divided by the batch size when `reduction` is false;
the division by a batch size of 0 gives no number. -/
theorem cosine_Forward_eq (Evaluate : List α → List α → α) (self : CosineEmbeddingLoss α)
    (p t : Mat α) (hc : p.n_cols ≠ 0) (hsize : p.size = t.size) :
    CosineEmbeddingLoss.Forward Evaluate self p t =
      if self.reduction then
        .ok ((List.range p.n_rows).map (fun k => self.pairLoss
          (Evaluate (span p.mem (k * p.n_cols) (k * p.n_cols + p.n_cols - 1))
            (span t.mem (k * p.n_cols) (k * p.n_cols + p.n_cols - 1))))).sum
      else if p.n_elem / p.n_cols = 0 then .error .nonFinite
      else
        .ok (((List.range p.n_rows).map (fun k => self.pairLoss
          (Evaluate (span p.mem (k * p.n_cols) (k * p.n_cols + p.n_cols - 1))
            (span t.mem (k * p.n_cols) (k * p.n_cols + p.n_cols - 1))))).sum /
          ((p.n_elem / p.n_cols : ℕ) : α)) := by
  have hpos : 0 < p.n_cols := Nat.pos_of_ne_zero hc
  have hbody : (fun (i : Nat) (lossSum : α) =>
      let cosDist := Evaluate (span (Mat.vectorise p).mem i (i + p.n_cols - 1))
        (span (Mat.vectorise t).mem i (i + p.n_cols - 1))
      if self.similarity then lossSum + (1 - cosDist)
      else
        let currentLoss := cosDist - self.margin
        lossSum + (if currentLoss > 0 then currentLoss else 0)) =
      (fun (i : Nat) (s : α) => s + self.pairLoss
        (Evaluate (span p.mem i (i + p.n_cols - 1)) (span t.mem i (i + p.n_cols - 1)))) := by
    funext i s
    simp only [CosineEmbeddingLoss.pairLoss, Mat.vectorise]
    split_ifs <;> rfl
  have hloop := spanLoop_eq_foldl p.n_cols p.n_rows hpos
    (fun (i : Nat) (s : α) => s + self.pairLoss
      (Evaluate (span p.mem i (i + p.n_cols - 1)) (span t.mem i (i + p.n_cols - 1))))
    p.n_rows 0 (by omega) 0
  simp only [Nat.zero_mul] at hloop
  rw [foldl_add (fun j => self.pairLoss
      (Evaluate (span p.mem (j * p.n_cols) (j * p.n_cols + p.n_cols - 1))
        (span t.mem (j * p.n_cols) (j * p.n_cols + p.n_cols - 1)))),
    zero_add, ← List.range_eq_range'] at hloop
  unfold CosineEmbeddingLoss.Forward
  simp only [hc, hsize, dite_false, ne_eq, not_true_eq_false, ite_false]
  rw [hbody]
  simp only [Mat.vectorise, Mat.n_elem, Nat.mul_one] at hloop ⊢
  rw [hloop]

/-- The method `CosineEmbeddingLoss::Forward` evaluates the primitive on the recorded pairs:
its result is the sum of `pairLoss` over `evaluatedPairs`, divided by the batch
size when `reduction` is false, and no number when that batch size is 0. -/
theorem cosine_Forward_eq_evaluatedPairs (Evaluate : List α → List α → α)
    (self : CosineEmbeddingLoss α) (p t : Mat α) (hc : p.n_cols ≠ 0) (hsize : p.size = t.size) :
    ∃ calls, CosineEmbeddingLoss.evaluatedPairs p t = .ok calls ∧
      CosineEmbeddingLoss.Forward Evaluate self p t =
        if self.reduction then
          .ok (calls.map (fun c => self.pairLoss (Evaluate c.1 c.2))).sum
        else if p.n_elem / p.n_cols = 0 then .error .nonFinite
        else .ok ((calls.map (fun c => self.pairLoss (Evaluate c.1 c.2))).sum /
          ((p.n_elem / p.n_cols : ℕ) : α)) := by
  refine ⟨_, evaluatedPairs_eq p t hc hsize, ?_⟩
  rw [cosine_Forward_eq Evaluate self p t hc hsize]
  simp [List.map_map, Function.comp_def]

/-- On a batch that is not empty, or with `reduction` true,
`CosineEmbeddingLoss::Forward` returns a number. -/
theorem cosine_Forward_ok (Evaluate : List α → List α → α) (self : CosineEmbeddingLoss α)
    (p t : Mat α) (hc : p.n_cols ≠ 0) (hsize : p.size = t.size)
    (hne : self.reduction = true ∨ p.n_rows ≠ 0) :
    CosineEmbeddingLoss.Forward Evaluate self p t =
      .ok (if self.reduction then
          ((List.range p.n_rows).map (fun k => self.pairLoss
            (Evaluate (span p.mem (k * p.n_cols) (k * p.n_cols + p.n_cols - 1))
              (span t.mem (k * p.n_cols) (k * p.n_cols + p.n_cols - 1))))).sum
        else
          ((List.range p.n_rows).map (fun k => self.pairLoss
            (Evaluate (span p.mem (k * p.n_cols) (k * p.n_cols + p.n_cols - 1))
              (span t.mem (k * p.n_cols) (k * p.n_cols + p.n_cols - 1))))).sum /
            ((p.n_elem / p.n_cols : ℕ) : α)) := by
  have hb : p.n_elem / p.n_cols = p.n_rows := Nat.mul_div_cancel _ (Nat.pos_of_ne_zero hc)
  rw [cosine_Forward_eq Evaluate self p t hc hsize]
  rcases hne with hr | hn
  · simp [hr]
  · cases self.reduction <;> simp [hb, hn]

end cosineForward

/-! ## Construction of LogCoshLoss (C11) -/

/-- C11: construction of LogCoshLoss succeeds exactly when a > 0: for a <= 0
it fails with the assertion and produces no instance, for a > 0 it produces the
instance that holds the given a and reduction. -/
theorem C11_construction_iff_positive {α : Type} [LinearOrderedField α]
    (a : α) (reduction : Bool) :
    (a ≤ 0 → LogCoshLoss.construct a reduction = .error .assertion) ∧
    (0 < a → LogCoshLoss.construct a reduction = .ok { a := a, reduction := reduction }) ∧
    ((∃ self, LogCoshLoss.construct a reduction = .ok self) ↔ 0 < a) := by
  refine ⟨?_, ?_, ?_⟩
  · intro h
    simp [LogCoshLoss.construct, Log.Assert, not_lt.2 h]
  · intro h
    simp [LogCoshLoss.construct, Log.Assert, h]
  · by_cases h : 0 < a
    · simp [LogCoshLoss.construct, Log.Assert, h]
    · simp [LogCoshLoss.construct, Log.Assert, h]

/-- The segment that `CosineEmbeddingLoss::Backward` leaves at the `k`-th span
of its output: `segmentGradient` of the `k`-th spans, divided by the batch size
to the power `n_rows - k` when `reduction` is false. -/
theorem cosine_Backward_segment {α : Type} [LinearOrderedField α]
    (Evaluate : List α → List α → α) (sqrt : α → α) (self : CosineEmbeddingLoss α)
    (p t loss : Mat α) (uninit : Nat → α)
    (hc : p.n_cols ≠ 0) (hsize : p.size = t.size) (hp : p.wf) (ht : t.wf)
    (k : Nat) (hk : k < p.n_rows) :
    span (CosineEmbeddingLoss.Backward Evaluate sqrt self p t loss uninit).2.mem
        (k * p.n_cols) (k * p.n_cols + p.n_cols - 1) =
      (CosineEmbeddingLoss.segmentGradient Evaluate sqrt self p.n_cols
        (span p.mem (k * p.n_cols) (k * p.n_cols + p.n_cols - 1))
        (span t.mem (k * p.n_cols) (k * p.n_cols + p.n_cols - 1))).map
        (fun x => x / ((p.n_elem / p.n_cols : ℕ) : α) ^
          (if self.reduction then 0 else p.n_rows - k)) := by
  have hpos : 0 < p.n_cols := Nat.pos_of_ne_zero hc
  obtain ⟨hr, hcc⟩ := (Mat.size_eq_iff p t).1 hsize
  have hle : ∀ j, j < p.n_rows → j * p.n_cols + p.n_cols ≤ p.n_rows * p.n_cols := by
    intro j hj
    have : (j + 1) * p.n_cols ≤ p.n_rows * p.n_cols := Nat.mul_le_mul_right _ hj
    linarith [Nat.succ_mul j p.n_cols]
  have hg : ∀ (j : Nat), j < p.n_rows →
      (CosineEmbeddingLoss.segmentGradient Evaluate sqrt self p.n_cols
        (span p.mem (j * p.n_cols) (j * p.n_cols + p.n_cols - 1))
        (span t.mem (j * p.n_cols) (j * p.n_cols + p.n_cols - 1))).length = p.n_cols := by
    intro j hj
    exact segmentGradient_length _ _ _ _ _ _
      (span_length _ _ _ hpos (by rw [hp]; exact hle j hj))
      (span_length _ _ _ hpos (by rw [ht, ← hr, ← hcc]; exact hle j hj))
  rw [cosine_Backward_eq _ _ _ _ _ _ _ hc hsize hp ht]
  simp only []
  rw [span_flatMap_range p.n_cols hpos _ p.n_rows
      (fun j hj => by rw [List.length_map]; exact hg j hj) k hk]
  congr 1
  funext x
  exact iterate_div _ _ x

/-! ## Pairs below the margin (C12) -/

/-- C12: with similarity = false, for every prediction and target of the same
shape, any margin and every vector pair whose cosine distance is strictly below
the margin, the pair adds exactly 0 to the sum that Forward returns and its
segment of the gradient written by Backward is all zeros, with either reduction
setting. -/
theorem C12_below_margin {α : Type} [LinearOrderedField α]
    (Evaluate : List α → List α → α) (sqrt : α → α) (margin : α) (reduction : Bool)
    (p t loss : Mat α) (uninit : Nat → α)
    (hc : p.n_cols ≠ 0) (hsize : p.size = t.size) (hp : p.wf) (ht : t.wf)
    (k : Nat) (hk : k < p.n_rows)
    (hlt : Evaluate (span p.mem (k * p.n_cols) (k * p.n_cols + p.n_cols - 1))
      (span t.mem (k * p.n_cols) (k * p.n_cols + p.n_cols - 1)) < margin) :
    CosineEmbeddingLoss.Forward Evaluate
        { margin := margin, similarity := false, reduction := reduction } p t =
      .ok (if reduction then
          ((List.range p.n_rows).map (fun j =>
            CosineEmbeddingLoss.pairLoss
              { margin := margin, similarity := false, reduction := reduction }
              (Evaluate (span p.mem (j * p.n_cols) (j * p.n_cols + p.n_cols - 1))
                (span t.mem (j * p.n_cols) (j * p.n_cols + p.n_cols - 1))))).sum
        else
          ((List.range p.n_rows).map (fun j =>
            CosineEmbeddingLoss.pairLoss
              { margin := margin, similarity := false, reduction := reduction }
              (Evaluate (span p.mem (j * p.n_cols) (j * p.n_cols + p.n_cols - 1))
                (span t.mem (j * p.n_cols) (j * p.n_cols + p.n_cols - 1))))).sum /
            ((p.n_elem / p.n_cols : ℕ) : α)) ∧
    CosineEmbeddingLoss.pairLoss
        { margin := margin, similarity := false, reduction := reduction }
        (Evaluate (span p.mem (k * p.n_cols) (k * p.n_cols + p.n_cols - 1))
          (span t.mem (k * p.n_cols) (k * p.n_cols + p.n_cols - 1))) = 0 ∧
    span (CosineEmbeddingLoss.Backward Evaluate sqrt
        { margin := margin, similarity := false, reduction := reduction }
        p t loss uninit).2.mem (k * p.n_cols) (k * p.n_cols + p.n_cols - 1) =
      List.replicate p.n_cols 0 := by
  refine ⟨cosine_Forward_ok Evaluate _ p t hc hsize (Or.inr (Nat.not_eq_zero_of_lt hk)),
    ?_, ?_⟩
  · have h : ¬ 0 < Evaluate (span p.mem (k * p.n_cols) (k * p.n_cols + p.n_cols - 1))
        (span t.mem (k * p.n_cols) (k * p.n_cols + p.n_cols - 1)) - margin := by
      linarith
    simp [CosineEmbeddingLoss.pairLoss, h]
  · rw [cosine_Backward_segment Evaluate sqrt _ p t loss uninit hc hsize hp ht k hk]
    simp [CosineEmbeddingLoss.segmentGradient, hlt]

/-- C12 at a concrete input: prediction and target the 2 x 2 identity, margin
1, cosine distance of the spec; the first pair has cosine distance 0 < 1 and
the first segment of the gradient is (0, 0). -/
theorem C12_below_margin_witness :
    (({ n_rows := 2, n_cols := 2, mem := [1, 0, 0, 1] } : Mat ℝ).n_cols ≠ 0 ∧
      ({ n_rows := 2, n_cols := 2, mem := [1, 0, 0, 1] } : Mat ℝ).size =
        ({ n_rows := 2, n_cols := 2, mem := [1, 0, 0, 1] } : Mat ℝ).size ∧
      ({ n_rows := 2, n_cols := 2, mem := [1, 0, 0, 1] } : Mat ℝ).wf ∧
      0 < ({ n_rows := 2, n_cols := 2, mem := [1, 0, 0, 1] } : Mat ℝ).n_rows ∧
      CosineDistance.Evaluate Real.sqrt
        (span ({ n_rows := 2, n_cols := 2, mem := [1, 0, 0, 1] } : Mat ℝ).mem (0 * 2)
          (0 * 2 + 2 - 1))
        (span ({ n_rows := 2, n_cols := 2, mem := [1, 0, 0, 1] } : Mat ℝ).mem (0 * 2)
          (0 * 2 + 2 - 1)) < 1) ∧
    span (CosineEmbeddingLoss.Backward (CosineDistance.Evaluate Real.sqrt) Real.sqrt
        { margin := 1, similarity := false, reduction := false }
        { n_rows := 2, n_cols := 2, mem := [1, 0, 0, 1] }
        { n_rows := 2, n_cols := 2, mem := [1, 0, 0, 1] }
        { n_rows := 0, n_cols := 0, mem := [] } (fun _ => 7)).2.mem (0 * 2) (0 * 2 + 2 - 1) =
      List.replicate 2 0 :=
  ⟨⟨by decide, rfl, by decide, by decide,
      by simp [span, CosineDistance.Evaluate, norm2]⟩,
    (C12_below_margin (CosineDistance.Evaluate Real.sqrt) Real.sqrt 1 false
      { n_rows := 2, n_cols := 2, mem := [1, 0, 0, 1] }
      { n_rows := 2, n_cols := 2, mem := [1, 0, 0, 1] }
      { n_rows := 0, n_cols := 0, mem := [] } (fun _ => 7)
      (by decide) rfl (by decide) (by decide) 0 (by decide)
      (by simp [span, CosineDistance.Evaluate, norm2])).2.2⟩

/-! ## Identical inputs with similarity = true (C13) -/

theorem sum_sq_nonneg : ∀ (v : List ℝ), 0 ≤ (v.map (fun x => x ^ 2)).sum := by
  intro v
  induction v with
  | nil => simp
  | cons x xs ih => simp only [List.map_cons, List.sum_cons]; positivity

theorem sum_sq_pos : ∀ (v : List ℝ), (∃ x ∈ v, x ≠ 0) → 0 < (v.map (fun x => x ^ 2)).sum := by
  intro v
  induction v with
  | nil => intro h; simp at h
  | cons y ys ih =>
    intro h
    simp only [List.map_cons, List.sum_cons]
    by_cases hy : y = 0
    · subst hy
      obtain ⟨x, hx, hx0⟩ := h
      rcases List.mem_cons.1 hx with rfl | hmem
      · exact absurd rfl hx0
      · have := ih ⟨x, hmem, hx0⟩
        simpa using this
    · have h1 : 0 < y ^ 2 := by positivity
      linarith [sum_sq_nonneg ys]

theorem sum_zipWith_mul_self : ∀ (v : List ℝ),
    (List.zipWith (· * ·) v v).sum = (v.map (fun x => x ^ 2)).sum := by
  intro v
  induction v with
  | nil => simp
  | cons x xs ih => simp [ih, pow_two]

/-- The cosine distance of the spec between a non-zero vector and itself is 0. -/
theorem cosineDistance_self (v : List ℝ) (h : ∃ x ∈ v, x ≠ 0) :
    CosineDistance.Evaluate Real.sqrt v v = 0 := by
  have hpos := sum_sq_pos v h
  unfold CosineDistance.Evaluate norm2
  rw [sum_zipWith_mul_self, Real.mul_self_sqrt hpos.le, div_self hpos.ne', sub_self]

/-- C13, as stated, fails on an empty array: for the 0 x 1 prediction and
target there is no vector to compare, the batch size is 0, and Forward with
similarity = true and reduction = false does not return 1 (the source divides
the sum 0 by the batch size 0). -/
theorem C13_counterexample :
    (∀ k, k < ({ n_rows := 0, n_cols := 1, mem := [] } : Mat ℝ).n_rows →
      ∃ x ∈ span ({ n_rows := 0, n_cols := 1, mem := [] } : Mat ℝ).mem (k * 1) (k * 1 + 1 - 1),
        x ≠ 0) ∧
    CosineEmbeddingLoss.Forward (CosineDistance.Evaluate Real.sqrt)
        { margin := 0, similarity := true, reduction := false }
        { n_rows := 0, n_cols := 1, mem := [] } { n_rows := 0, n_cols := 1, mem := [] } ≠
      .ok 1 := by
  constructor
  · intro k hk
    exact absurd hk (Nat.not_lt_zero k)
  · simp [CosineEmbeddingLoss.Forward, Mat.size, Mat.vectorise, Mat.n_elem, spanLoop]

/-- C13, amended: with similarity = true, the cosine distance taken as 1 -
cosine similarity and prediction equal to target, for every non-empty array
whose compared vectors are all non-zero every vector pair has cosine distance 0
and contributes exactly 1, so Forward returns the batch size when
reduction = true and 1 when reduction = false. -/
theorem C13_identical_inputs (margin : ℝ) (p : Mat ℝ) (hne : p.n_elem ≠ 0)
    (hnz : ∀ k, k < p.n_rows →
      ∃ x ∈ span p.mem (k * p.n_cols) (k * p.n_cols + p.n_cols - 1), x ≠ 0) :
    (∀ k, k < p.n_rows →
      CosineDistance.Evaluate Real.sqrt
          (span p.mem (k * p.n_cols) (k * p.n_cols + p.n_cols - 1))
          (span p.mem (k * p.n_cols) (k * p.n_cols + p.n_cols - 1)) = 0 ∧
      ∀ reduction, CosineEmbeddingLoss.pairLoss
          { margin := margin, similarity := true, reduction := reduction }
          (CosineDistance.Evaluate Real.sqrt
            (span p.mem (k * p.n_cols) (k * p.n_cols + p.n_cols - 1))
            (span p.mem (k * p.n_cols) (k * p.n_cols + p.n_cols - 1))) = 1) ∧
    CosineEmbeddingLoss.Forward (CosineDistance.Evaluate Real.sqrt)
        { margin := margin, similarity := true, reduction := true } p p =
      .ok ((p.n_elem / p.n_cols : ℕ) : ℝ) ∧
    CosineEmbeddingLoss.Forward (CosineDistance.Evaluate Real.sqrt)
        { margin := margin, similarity := true, reduction := false } p p = .ok 1 := by
  have hc : p.n_cols ≠ 0 := Mat.n_cols_ne_zero_of_n_elem_ne_zero p hne
  have hr : p.n_rows ≠ 0 := by
    intro h0
    exact hne (by simp [Mat.n_elem, h0])
  have hb : p.n_elem / p.n_cols = p.n_rows := Nat.mul_div_cancel _ (Nat.pos_of_ne_zero hc)
  have hterm : ∀ reduction, ∀ k ∈ List.range p.n_rows,
      CosineEmbeddingLoss.pairLoss
        { margin := margin, similarity := true, reduction := reduction }
        (CosineDistance.Evaluate Real.sqrt
          (span p.mem (k * p.n_cols) (k * p.n_cols + p.n_cols - 1))
          (span p.mem (k * p.n_cols) (k * p.n_cols + p.n_cols - 1))) = (1 : ℝ) := by
    intro reduction k hk
    rw [cosineDistance_self _ (hnz k (List.mem_range.1 hk))]
    simp [CosineEmbeddingLoss.pairLoss]
  have hsum : ∀ reduction, ((List.range p.n_rows).map (fun k =>
      CosineEmbeddingLoss.pairLoss
        { margin := margin, similarity := true, reduction := reduction }
        (CosineDistance.Evaluate Real.sqrt
          (span p.mem (k * p.n_cols) (k * p.n_cols + p.n_cols - 1))
          (span p.mem (k * p.n_cols) (k * p.n_cols + p.n_cols - 1))))).sum =
        (p.n_rows : ℝ) := by
    intro reduction
    rw [List.map_congr_left (hterm reduction)]
    simp
  refine ⟨fun k hk => ⟨cosineDistance_self _ (hnz k hk),
    fun reduction => hterm reduction k (List.mem_range.2 hk)⟩, ?_, ?_⟩
  · rw [cosine_Forward_ok _ _ p p hc rfl (Or.inr hr)]
    simp only [if_true, hsum, hb]
  · rw [cosine_Forward_ok _ _ p p hc rfl (Or.inr hr)]
    simp only [Bool.false_eq_true, if_false, hsum, hb]
    rw [div_self (Nat.cast_ne_zero.2 hr)]

/-- C13, amended, at a concrete input: the 2 x 2 identity, whose two compared
vectors (1, 0) and (0, 1) are non-zero; Forward returns 1 with
reduction = false. -/
theorem C13_identical_inputs_witness :
    (({ n_rows := 2, n_cols := 2, mem := [1, 0, 0, 1] } : Mat ℝ).n_elem ≠ 0 ∧
      ∀ k, k < ({ n_rows := 2, n_cols := 2, mem := [1, 0, 0, 1] } : Mat ℝ).n_rows →
        ∃ x ∈ span ({ n_rows := 2, n_cols := 2, mem := [1, 0, 0, 1] } : Mat ℝ).mem
          (k * 2) (k * 2 + 2 - 1), x ≠ 0) ∧
    CosineEmbeddingLoss.Forward (CosineDistance.Evaluate Real.sqrt)
        { margin := 0, similarity := true, reduction := false }
        { n_rows := 2, n_cols := 2, mem := [1, 0, 0, 1] }
        { n_rows := 2, n_cols := 2, mem := [1, 0, 0, 1] } = .ok 1 :=
  have hnz : ∀ k, k < ({ n_rows := 2, n_cols := 2, mem := [1, 0, 0, 1] } : Mat ℝ).n_rows →
      ∃ x ∈ span ({ n_rows := 2, n_cols := 2, mem := [1, 0, 0, 1] } : Mat ℝ).mem
        (k * 2) (k * 2 + 2 - 1), x ≠ 0 := by
    intro k hk
    have hk2 : k < 2 := hk
    interval_cases k
    · exact ⟨1, by simp [span], one_ne_zero⟩
    · exact ⟨1, by simp [span], one_ne_zero⟩
  ⟨⟨by decide, hnz⟩,
    (C13_identical_inputs 0 { n_rows := 2, n_cols := 2, mem := [1, 0, 0, 1] }
      (by decide) hnz).2.2⟩

/-! ## The explicit shape check of CosineEmbeddingLoss (C14) -/

/-- On a prediction with at least one column whose shape differs from that of
the target, `CosineEmbeddingLoss::Forward` and `Backward` fail with the fatal
error, and `Backward` leaves `loss` as it was. -/
theorem cosine_shape_check {α : Type} [LinearOrderedField α]
    (Evaluate : List α → List α → α) (sqrt : α → α) (self : CosineEmbeddingLoss α)
    (p t loss : Mat α) (uninit : Nat → α) (hc : p.n_cols ≠ 0) (h : p.size ≠ t.size) :
    CosineEmbeddingLoss.Forward Evaluate self p t = .error .fatal ∧
    CosineEmbeddingLoss.Backward Evaluate sqrt self p t loss uninit = (.error .fatal, loss) := by
  constructor
  · simp [CosineEmbeddingLoss.Forward, Log.Fatal, hc, h]
  · simp [CosineEmbeddingLoss.Backward, Log.Fatal, hc, h]

/-- C14, the code at the failing input: an empty 0 x 0 prediction and a 1 x 1
target have different shapes, yet Forward and Backward do not reach the shape
check: `prediction.n_elem / cols` with `cols = 0` is evaluated first, so the
call ends in the division by zero and not in the shape-mismatch error. -/
theorem C14_division_before_shape_check (loss : Mat ℝ) (uninit : Nat → ℝ) :
    ({ n_rows := 0, n_cols := 0, mem := [] } : Mat ℝ).size ≠
      ({ n_rows := 1, n_cols := 1, mem := [1] } : Mat ℝ).size ∧
    CosineEmbeddingLoss.Forward (CosineDistance.Evaluate Real.sqrt)
        { margin := 0, similarity := true, reduction := true }
        { n_rows := 0, n_cols := 0, mem := [] } { n_rows := 1, n_cols := 1, mem := [1] } =
      .error .divisionByZero ∧
    CosineEmbeddingLoss.Backward (CosineDistance.Evaluate Real.sqrt) Real.sqrt
        { margin := 0, similarity := true, reduction := true }
        { n_rows := 0, n_cols := 0, mem := [] } { n_rows := 1, n_cols := 1, mem := [1] }
        loss uninit =
      (.error .divisionByZero, loss) ∧
    Error.divisionByZero ≠ Error.fatal := by
  refine ⟨by decide, ?_, ?_, by decide⟩
  · simp [CosineEmbeddingLoss.Forward]
  · simp [CosineEmbeddingLoss.Backward]

/-! ## The vectors that are compared (C15) -/

/-- C15, as stated, fails whenever the array is not square: for the 1 x 2
prediction (1, 2) and target (2, 1) Forward makes one call of the primitive, on
the pair ((1, 2), (2, 1)), while the columns are the two pairs ((1), (2)) and
((2), (1)). -/
theorem C15_counterexample :
    CosineEmbeddingLoss.evaluatedPairs
        ({ n_rows := 1, n_cols := 2, mem := [1, 2] } : Mat ℚ)
        { n_rows := 1, n_cols := 2, mem := [2, 1] } = .ok [([1, 2], [2, 1])] ∧
    (List.range ({ n_rows := 1, n_cols := 2, mem := [1, 2] } : Mat ℚ).n_cols).map
        (fun j => (Mat.col ({ n_rows := 1, n_cols := 2, mem := [1, 2] } : Mat ℚ) j,
          Mat.col ({ n_rows := 1, n_cols := 2, mem := [2, 1] } : Mat ℚ) j)) =
      [([1], [2]), ([2], [1])] := by
  constructor
  · simp [CosineEmbeddingLoss.evaluatedPairs, Mat.size, Mat.vectorise, Mat.n_elem, spanLoop, span]
  · simp [Mat.col, List.range_succ]

/-- C15, amended: for every prediction and target of the same shape with at
least one column, Forward passes to the cosine-distance primitive n_rows pairs,
the k-th made of the elements k * n_cols, ..., k * n_cols + n_cols - 1 of the
vectorised (column-major) prediction and of the vectorised target, and its
result is the sum of the pair losses of these pairs, divided by the batch size
when reduction = false (no number when that batch size is 0); when the arrays
are square these pairs are the columns of prediction, each with the same column
of target. -/
theorem C15_compared_vectors {α : Type} [LinearOrderedField α]
    (Evaluate : List α → List α → α) (self : CosineEmbeddingLoss α) (p t : Mat α)
    (hc : p.n_cols ≠ 0) (hsize : p.size = t.size) :
    CosineEmbeddingLoss.evaluatedPairs p t =
      .ok ((List.range p.n_rows).map (fun k =>
        (span p.mem (k * p.n_cols) (k * p.n_cols + p.n_cols - 1),
          span t.mem (k * p.n_cols) (k * p.n_cols + p.n_cols - 1)))) ∧
    (∃ calls, CosineEmbeddingLoss.evaluatedPairs p t = .ok calls ∧
      CosineEmbeddingLoss.Forward Evaluate self p t =
        if self.reduction then
          .ok (calls.map (fun c => self.pairLoss (Evaluate c.1 c.2))).sum
        else if p.n_elem / p.n_cols = 0 then .error .nonFinite
        else .ok ((calls.map (fun c => self.pairLoss (Evaluate c.1 c.2))).sum /
          ((p.n_elem / p.n_cols : ℕ) : α))) ∧
    (p.n_rows = p.n_cols →
      CosineEmbeddingLoss.evaluatedPairs p t =
        .ok ((List.range p.n_cols).map (fun j => (Mat.col p j, Mat.col t j)))) := by
  obtain ⟨hr, _⟩ := (Mat.size_eq_iff p t).1 hsize
  refine ⟨evaluatedPairs_eq p t hc hsize,
    cosine_Forward_eq_evaluatedPairs Evaluate self p t hc hsize, ?_⟩
  intro hsq
  rw [evaluatedPairs_eq p t hc hsize, hsq]
  congr 1
  apply List.map_congr_left
  intro k _
  have hz : k * p.n_cols + p.n_cols - 1 + 1 - k * p.n_cols = p.n_cols := by omega
  simp only [span, Mat.col, hz, ← hr, hsq]

/-- C15, amended, at a concrete input: the 2 x 2 prediction with memory
(1, 2, 3, 4) and target with memory (5, 6, 7, 8); the pairs are the columns. -/
theorem C15_compared_vectors_witness :
    (({ n_rows := 2, n_cols := 2, mem := [1, 2, 3, 4] } : Mat ℝ).n_cols ≠ 0 ∧
      ({ n_rows := 2, n_cols := 2, mem := [1, 2, 3, 4] } : Mat ℝ).size =
        ({ n_rows := 2, n_cols := 2, mem := [5, 6, 7, 8] } : Mat ℝ).size) ∧
    CosineEmbeddingLoss.evaluatedPairs
        ({ n_rows := 2, n_cols := 2, mem := [1, 2, 3, 4] } : Mat ℝ)
        { n_rows := 2, n_cols := 2, mem := [5, 6, 7, 8] } =
      .ok ((List.range 2).map (fun j =>
        (Mat.col ({ n_rows := 2, n_cols := 2, mem := [1, 2, 3, 4] } : Mat ℝ) j,
          Mat.col ({ n_rows := 2, n_cols := 2, mem := [5, 6, 7, 8] } : Mat ℝ) j))) :=
  ⟨⟨by decide, by decide⟩,
    (C15_compared_vectors (CosineDistance.Evaluate Real.sqrt) { margin := 0, similarity := true, reduction := true }
      ({ n_rows := 2, n_cols := 2, mem := [1, 2, 3, 4] } : Mat ℝ)
      { n_rows := 2, n_cols := 2, mem := [5, 6, 7, 8] } (by decide) (by decide)).2.2 rfl⟩

/-! ## The gradient formula of CosineEmbeddingLoss (C16) -/

/-- C16: with reduction = true, for every prediction and target of the same
shape and every vector pair (p, t) of a non-zero prediction vector p, with
cosine distance d, for which it is not the case that similarity = false and
d < margin, the segment of the gradient is -sign * (n(t) - d * p / ||p||) /
||p||, with sign = +1 when similarity is true and -1 otherwise and n(t) the
normalised target of the array library (t divided by ||t||, and by 1 when t is
the zero vector); for a non-zero target vector this is the formula
-sign * (t / ||t|| - d * p / ||p||) / ||p|| of the claim. -/
theorem C16_gradient_formula {α : Type} [LinearOrderedField α]
    (Evaluate : List α → List α → α) (sqrt : α → α) (margin : α) (similarity : Bool)
    (p t loss : Mat α) (uninit : Nat → α)
    (hc : p.n_cols ≠ 0) (hsize : p.size = t.size) (hp : p.wf) (ht : t.wf)
    (k : Nat) (hk : k < p.n_rows)
    (hcond : ¬ (similarity = false ∧
      Evaluate (span p.mem (k * p.n_cols) (k * p.n_cols + p.n_cols - 1))
        (span t.mem (k * p.n_cols) (k * p.n_cols + p.n_cols - 1)) < margin))
    (hp0 : norm2 sqrt (span p.mem (k * p.n_cols) (k * p.n_cols + p.n_cols - 1)) ≠ 0) :
    span (CosineEmbeddingLoss.Backward Evaluate sqrt
        { margin := margin, similarity := similarity, reduction := true }
        p t loss uninit).2.mem (k * p.n_cols) (k * p.n_cols + p.n_cols - 1) =
      List.zipWith
        (fun ti pi => -(if similarity then 1 else -1) *
          (ti / (if norm2 sqrt (span t.mem (k * p.n_cols) (k * p.n_cols + p.n_cols - 1)) ≠ 0
              then norm2 sqrt (span t.mem (k * p.n_cols) (k * p.n_cols + p.n_cols - 1))
              else 1) -
            Evaluate (span p.mem (k * p.n_cols) (k * p.n_cols + p.n_cols - 1))
                (span t.mem (k * p.n_cols) (k * p.n_cols + p.n_cols - 1)) *
              (pi / norm2 sqrt (span p.mem (k * p.n_cols) (k * p.n_cols + p.n_cols - 1)))) /
          norm2 sqrt (span p.mem (k * p.n_cols) (k * p.n_cols + p.n_cols - 1)))
        (span t.mem (k * p.n_cols) (k * p.n_cols + p.n_cols - 1))
        (span p.mem (k * p.n_cols) (k * p.n_cols + p.n_cols - 1)) ∧
    (norm2 sqrt (span t.mem (k * p.n_cols) (k * p.n_cols + p.n_cols - 1)) ≠ 0 →
      span (CosineEmbeddingLoss.Backward Evaluate sqrt
          { margin := margin, similarity := similarity, reduction := true }
          p t loss uninit).2.mem (k * p.n_cols) (k * p.n_cols + p.n_cols - 1) =
        List.zipWith
          (fun ti pi => -(if similarity then 1 else -1) *
            (ti / norm2 sqrt (span t.mem (k * p.n_cols) (k * p.n_cols + p.n_cols - 1)) -
              Evaluate (span p.mem (k * p.n_cols) (k * p.n_cols + p.n_cols - 1))
                  (span t.mem (k * p.n_cols) (k * p.n_cols + p.n_cols - 1)) *
                (pi / norm2 sqrt (span p.mem (k * p.n_cols) (k * p.n_cols + p.n_cols - 1)))) /
            norm2 sqrt (span p.mem (k * p.n_cols) (k * p.n_cols + p.n_cols - 1)))
          (span t.mem (k * p.n_cols) (k * p.n_cols + p.n_cols - 1))
          (span p.mem (k * p.n_cols) (k * p.n_cols + p.n_cols - 1))) := by
  have hb : ¬ ((decide (Evaluate (span p.mem (k * p.n_cols) (k * p.n_cols + p.n_cols - 1))
      (span t.mem (k * p.n_cols) (k * p.n_cols + p.n_cols - 1)) < margin) &&
      !similarity) = true) := by
    intro hb
    simp only [Bool.and_eq_true, decide_eq_true_eq, Bool.not_eq_true'] at hb
    exact hcond ⟨hb.2, hb.1⟩
  have key : span (CosineEmbeddingLoss.Backward Evaluate sqrt
        { margin := margin, similarity := similarity, reduction := true }
        p t loss uninit).2.mem (k * p.n_cols) (k * p.n_cols + p.n_cols - 1) =
      List.zipWith
        (fun ti pi => -(if similarity then 1 else -1) *
          (ti / (if norm2 sqrt (span t.mem (k * p.n_cols) (k * p.n_cols + p.n_cols - 1)) ≠ 0
              then norm2 sqrt (span t.mem (k * p.n_cols) (k * p.n_cols + p.n_cols - 1))
              else 1) -
            Evaluate (span p.mem (k * p.n_cols) (k * p.n_cols + p.n_cols - 1))
                (span t.mem (k * p.n_cols) (k * p.n_cols + p.n_cols - 1)) *
              (pi / norm2 sqrt (span p.mem (k * p.n_cols) (k * p.n_cols + p.n_cols - 1)))) /
          norm2 sqrt (span p.mem (k * p.n_cols) (k * p.n_cols + p.n_cols - 1)))
        (span t.mem (k * p.n_cols) (k * p.n_cols + p.n_cols - 1))
        (span p.mem (k * p.n_cols) (k * p.n_cols + p.n_cols - 1)) := by
    rw [cosine_Backward_segment Evaluate sqrt _ p t loss uninit hc hsize hp ht k hk]
    simp only [CosineEmbeddingLoss.segmentGradient, hb, if_false, if_true, pow_zero, div_one,
      List.map_id', normalise, hp0, ne_eq, not_false_eq_true, List.zipWith_map,
      List.map_zipWith, Bool.false_eq_true]
    congr 1
    funext ti pi
    cases similarity <;> simp
  refine ⟨key, fun ht0 => ?_⟩
  rw [key]
  simp only [ht0, ne_eq, not_false_eq_true, if_true]

/-- C16 at a concrete input: prediction the 2 x 2 identity, target the 2 x 2
exchange matrix, similarity = true and the cosine distance of the spec; the
compared vectors (1, 0) and (0, 1) have norm 1 and the first segment of the
gradient is (1, -1), as the formula gives. -/
theorem C16_gradient_formula_witness :
    (({ n_rows := 2, n_cols := 2, mem := [1, 0, 0, 1] } : Mat ℝ).n_cols ≠ 0 ∧
      ({ n_rows := 2, n_cols := 2, mem := [1, 0, 0, 1] } : Mat ℝ).size =
        ({ n_rows := 2, n_cols := 2, mem := [0, 1, 1, 0] } : Mat ℝ).size ∧
      ({ n_rows := 2, n_cols := 2, mem := [1, 0, 0, 1] } : Mat ℝ).wf ∧
      ({ n_rows := 2, n_cols := 2, mem := [0, 1, 1, 0] } : Mat ℝ).wf ∧
      0 < ({ n_rows := 2, n_cols := 2, mem := [1, 0, 0, 1] } : Mat ℝ).n_rows ∧
      norm2 Real.sqrt (span ({ n_rows := 2, n_cols := 2, mem := [1, 0, 0, 1] } : Mat ℝ).mem
        (0 * 2) (0 * 2 + 2 - 1)) ≠ 0 ∧
      norm2 Real.sqrt (span ({ n_rows := 2, n_cols := 2, mem := [0, 1, 1, 0] } : Mat ℝ).mem
        (0 * 2) (0 * 2 + 2 - 1)) ≠ 0) ∧
    span (CosineEmbeddingLoss.Backward (CosineDistance.Evaluate Real.sqrt) Real.sqrt
        { margin := 0, similarity := true, reduction := true }
        { n_rows := 2, n_cols := 2, mem := [1, 0, 0, 1] }
        { n_rows := 2, n_cols := 2, mem := [0, 1, 1, 0] }
        { n_rows := 0, n_cols := 0, mem := [] } (fun _ => 7)).2.mem (0 * 2) (0 * 2 + 2 - 1) =
      [1, -1] :=
  have hp0 : norm2 Real.sqrt (span ({ n_rows := 2, n_cols := 2, mem := [1, 0, 0, 1] } :
      Mat ℝ).mem (0 * 2) (0 * 2 + 2 - 1)) ≠ 0 := by
    simp [span, norm2]
  have ht0 : norm2 Real.sqrt (span ({ n_rows := 2, n_cols := 2, mem := [0, 1, 1, 0] } :
      Mat ℝ).mem (0 * 2) (0 * 2 + 2 - 1)) ≠ 0 := by
    simp [span, norm2]
  ⟨⟨by decide, by decide, by decide, by decide, by decide, hp0, ht0⟩,
    ((C16_gradient_formula (CosineDistance.Evaluate Real.sqrt) Real.sqrt 0 true
      { n_rows := 2, n_cols := 2, mem := [1, 0, 0, 1] }
      { n_rows := 2, n_cols := 2, mem := [0, 1, 1, 0] }
      { n_rows := 0, n_cols := 0, mem := [] } (fun _ => 7)
      (by decide) (by decide) (by decide) (by decide) 0 (by decide) (by simp) hp0).2 ht0).trans
      (by simp [span, CosineDistance.Evaluate, norm2])⟩

/-! ## Serialization round trip (C17) -/

/-- C17: for each of the five losses and every hyperparameter assignment,
`serialize` on an output archive appends the fields to it, and `serialize` on
an input archive that holds those fields next turns any instance into one whose
hyperparameters all equal the originals. -/
theorem C17_serialize_round_trip {α : Type}
    (pre post : List (String × Value α))
    (c c' : CosineEmbeddingLoss α) (e e' : EarthMoverDistance) (h h' : HingeEmbeddingLoss)
    (k k' : KLDivergence) (l l' : LogCoshLoss α) :
    (∃ written, c.serialize { loading := false, nodes := pre } =
        some ({ loading := false, nodes := pre ++ written }, c) ∧
      c'.serialize { loading := true, nodes := written ++ post } =
        some ({ loading := true, nodes := post }, c)) ∧
    (∃ written, e.serialize { loading := false, nodes := pre } =
        some ({ loading := false, nodes := pre ++ written }, e) ∧
      e'.serialize { loading := true, nodes := written ++ post } =
        some ({ loading := true, nodes := post }, e)) ∧
    (∃ written, h.serialize { loading := false, nodes := pre } =
        some ({ loading := false, nodes := pre ++ written }, h) ∧
      h'.serialize { loading := true, nodes := written ++ post } =
        some ({ loading := true, nodes := post }, h)) ∧
    (∃ written, k.serialize { loading := false, nodes := pre } =
        some ({ loading := false, nodes := pre ++ written }, k) ∧
      k'.serialize { loading := true, nodes := written ++ post } =
        some ({ loading := true, nodes := post }, k)) ∧
    (∃ written, l.serialize { loading := false, nodes := pre } =
        some ({ loading := false, nodes := pre ++ written }, l) ∧
      l'.serialize { loading := true, nodes := written ++ post } =
        some ({ loading := true, nodes := post }, l)) := by
  refine ⟨⟨[("margin", .double c.margin), ("similarity", .bool c.similarity),
      ("reduction", .bool c.reduction)], ?_, ?_⟩,
    ⟨[("reduction", .bool e.reduction)], ?_, ?_⟩,
    ⟨[("reduction", .bool h.reduction)], ?_, ?_⟩,
    ⟨[("reduction", .bool k.reduction)], ?_, ?_⟩,
    ⟨[("a", .double l.a), ("reduction", .bool l.reduction)], ?_, ?_⟩⟩ <;>
  simp [CosineEmbeddingLoss.serialize, EarthMoverDistance.serialize,
    HingeEmbeddingLoss.serialize, KLDivergence.serialize, LogCoshLoss.serialize,
    Archive.nvp_double, Archive.nvp_bool]

/-! ## KLDivergence on probability distributions (C18) -/

/-- One term of the KL sum against the difference of the two probabilities. -/
theorem kl_term_ge (t p : ℝ) (ht : 0 < t) :
    t - Real.exp p ≤ t * (Real.log t - p) ∧
      (t * (Real.log t - p) = t - Real.exp p → t = Real.exp p) := by
  have hexp : Real.exp (p - Real.log t) = Real.exp p / t := by
    rw [Real.exp_sub, Real.exp_log ht]
  constructor
  · have h := Real.add_one_le_exp (p - Real.log t)
    rw [hexp, le_div_iff₀ ht] at h
    nlinarith
  · intro heq
    by_contra hne
    have hu : p - Real.log t ≠ 0 := by
      intro h0
      apply hne
      have : p = Real.log t := by linarith
      rw [this, Real.exp_log ht]
    have h := Real.add_one_lt_exp hu
    rw [hexp, lt_div_iff₀ ht] at h
    nlinarith

theorem kl_sum_ge :
    ∀ (t p : List ℝ), p.length = t.length → (∀ x ∈ t, 0 < x) →
      t.sum - (p.map Real.exp).sum ≤
          (List.zipWith (fun t p => t * (Real.log t - p)) t p).sum ∧
        ((List.zipWith (fun t p => t * (Real.log t - p)) t p).sum =
            t.sum - (p.map Real.exp).sum → t = p.map Real.exp) := by
  intro t
  induction t with
  | nil =>
    intro p hp _
    have : p = [] := List.length_eq_zero.1 hp
    subst this
    simp
  | cons t0 ts ih =>
    intro p hp hpos
    cases p with
    | nil => simp at hp
    | cons p0 ps =>
      simp only [List.length_cons, Nat.add_right_cancel_iff] at hp
      have h0 := kl_term_ge t0 p0 (hpos t0 (List.mem_cons_self _ _))
      have hs := ih ps hp (fun x hx => hpos x (List.mem_cons_of_mem _ hx))
      simp only [List.zipWith_cons_cons, List.sum_cons, List.map_cons]
      constructor
      · linarith [h0.1, hs.1]
      · intro heq
        have e0 : t0 * (Real.log t0 - p0) = t0 - Real.exp p0 := by linarith [h0.1, hs.1]
        have es : (List.zipWith (fun t p => t * (Real.log t - p)) ts ps).sum =
            ts.sum - (ps.map Real.exp).sum := by linarith [h0.1, hs.1]
        rw [h0.2 e0, hs.2 es]

/-- C18: for every non-empty target with strictly positive entries that sum to
1 and every prediction of the same shape whose element-wise exponential sums to
1, Forward of KLDivergence returns a value >= 0, with either reduction setting,
and the value is 0 exactly when target is the element-wise exponential of
prediction. -/
theorem C18_kl_divergence_nonneg (reduction : Bool) (p t : Mat ℝ)
    (hsize : p.size = t.size) (hp : p.wf) (ht : t.wf) (hne : t.n_elem ≠ 0)
    (hpos : ∀ x ∈ t.mem, 0 < x) (hsum : t.mem.sum = 1)
    (hexp : (p.mem.map Real.exp).sum = 1) :
    ∃ v, KLDivergence.Forward Real.log { reduction := reduction } p t = .ok v ∧
      0 ≤ v ∧ (v = 0 ↔ t.mem = p.mem.map Real.exp) := by
  have hlen : p.mem.length = t.mem.length := by
    rw [hp, ht, ((Mat.size_eq_iff p t).1 hsize).1, ((Mat.size_eq_iff p t).1 hsize).2]
  obtain ⟨hge, heq⟩ := kl_sum_ge t.mem p.mem hlen hpos
  rw [hsum, hexp, sub_self] at hge heq
  have hn : (0 : ℝ) < (t.n_elem : ℝ) := Nat.cast_pos.2 (Nat.pos_of_ne_zero hne)
  have hzero : t.mem = p.mem.map Real.exp →
      (List.zipWith (fun t p => t * (Real.log t - p)) t.mem p.mem).sum = 0 := by
    intro h
    rw [h]
    exact sum_zipWith_exp_log p.mem
  refine ⟨_, kl_Forward_ok Real.log _ p t hsize (Or.inr hne), ?_, ?_⟩
  · rw [zipWith_mul_sub_map]
    cases reduction
    · simp only [Bool.false_eq_true, if_false]
      exact div_nonneg hge hn.le
    · simpa using hge
  · rw [zipWith_mul_sub_map]
    cases reduction
    · simp only [Bool.false_eq_true, if_false]
      constructor
      · intro h
        rcases div_eq_zero_iff.1 h with h1 | h1
        · exact heq h1
        · exact absurd h1 hn.ne'
      · intro h
        rw [hzero h, zero_div]
    · simp only [if_true]
      exact ⟨heq, hzero⟩

/-- C18 at a concrete input: the 1 x 2 target (1/2, 1/2) and the prediction
(log(1/2), log(1/2)). -/
theorem C18_kl_divergence_nonneg_witness :
    (({ n_rows := 1, n_cols := 2, mem := [Real.log (1 / 2), Real.log (1 / 2)] } : Mat ℝ).size =
        ({ n_rows := 1, n_cols := 2, mem := [1 / 2, 1 / 2] } : Mat ℝ).size ∧
      ({ n_rows := 1, n_cols := 2, mem := [Real.log (1 / 2), Real.log (1 / 2)] } : Mat ℝ).wf ∧
      ({ n_rows := 1, n_cols := 2, mem := [1 / 2, 1 / 2] } : Mat ℝ).wf ∧
      ({ n_rows := 1, n_cols := 2, mem := [1 / 2, 1 / 2] } : Mat ℝ).n_elem ≠ 0 ∧
      (∀ x ∈ ({ n_rows := 1, n_cols := 2, mem := [1 / 2, 1 / 2] } : Mat ℝ).mem, 0 < x) ∧
      ({ n_rows := 1, n_cols := 2, mem := [1 / 2, 1 / 2] } : Mat ℝ).mem.sum = 1 ∧
      (({ n_rows := 1, n_cols := 2,
          mem := [Real.log (1 / 2), Real.log (1 / 2)] } : Mat ℝ).mem.map Real.exp).sum = 1) ∧
    ∃ v, KLDivergence.Forward Real.log { reduction := false }
        { n_rows := 1, n_cols := 2, mem := [Real.log (1 / 2), Real.log (1 / 2)] }
        { n_rows := 1, n_cols := 2, mem := [1 / 2, 1 / 2] } = .ok v ∧
      0 ≤ v ∧
      (v = 0 ↔ ({ n_rows := 1, n_cols := 2, mem := [1 / 2, 1 / 2] } : Mat ℝ).mem =
        ({ n_rows := 1, n_cols := 2,
           mem := [Real.log (1 / 2), Real.log (1 / 2)] } : Mat ℝ).mem.map Real.exp) :=
  have h5 : ∀ x ∈ ({ n_rows := 1, n_cols := 2, mem := [1 / 2, 1 / 2] } : Mat ℝ).mem, 0 < x := by
    intro x hx
    simp only [List.mem_cons, List.mem_singleton, List.not_mem_nil, or_false, or_self] at hx
    rw [hx]
    norm_num
  have h6 : ({ n_rows := 1, n_cols := 2, mem := [1 / 2, 1 / 2] } : Mat ℝ).mem.sum = 1 := by
    norm_num
  have h7 : (({ n_rows := 1, n_cols := 2, mem := [Real.log (1 / 2), Real.log (1 / 2)] } :
      Mat ℝ).mem.map Real.exp).sum = 1 := by
    have h : Real.exp (Real.log (1 / 2)) = 1 / 2 := Real.exp_log (by norm_num)
    simp only [List.map_cons, List.map_nil, List.sum_cons, List.sum_nil, h]
    norm_num
  ⟨⟨by decide, by decide, by decide, by decide, h5, h6, h7⟩,
    C18_kl_divergence_nonneg false
      { n_rows := 1, n_cols := 2, mem := [Real.log (1 / 2), Real.log (1 / 2)] }
      { n_rows := 1, n_cols := 2, mem := [1 / 2, 1 / 2] }
      (by decide) (by decide) (by decide) (by decide) h5 h6 h7⟩

/-! ## LogCoshLoss is non-negative (C19) -/

theorem log_cosh_nonneg (y : ℝ) : 0 ≤ Real.log (Real.cosh y) :=
  Real.log_nonneg (Real.one_le_cosh y)

theorem log_cosh_eq_zero_iff (y : ℝ) : Real.log (Real.cosh y) = 0 ↔ y = 0 := by
  constructor
  · intro h
    by_contra hy
    have := Real.log_pos (Real.one_lt_cosh.2 hy)
    linarith
  · intro h
    rw [h, Real.cosh_zero, Real.log_one]

theorem log_cosh_sum (a : ℝ) (ha : a ≠ 0) :
    ∀ (t p : List ℝ), p.length = t.length →
      0 ≤ ((List.zipWith (· - ·) t p).map (fun x => Real.log (Real.cosh (a * x)))).sum ∧
        (((List.zipWith (· - ·) t p).map (fun x => Real.log (Real.cosh (a * x)))).sum = 0 ↔
          p = t) := by
  intro t
  induction t with
  | nil =>
    intro p hp
    have : p = [] := List.length_eq_zero.1 hp
    subst this
    simp
  | cons t0 ts ih =>
    intro p hp
    cases p with
    | nil => simp at hp
    | cons p0 ps =>
      simp only [List.length_cons, Nat.add_right_cancel_iff] at hp
      obtain ⟨hs, hiff⟩ := ih ps hp
      have h0 := log_cosh_nonneg (a * (t0 - p0))
      simp only [List.zipWith_cons_cons, List.map_cons, List.sum_cons, List.cons.injEq]
      refine ⟨add_nonneg h0 hs, ?_, ?_⟩
      · intro h
        have e0 : Real.log (Real.cosh (a * (t0 - p0))) = 0 := by linarith
        have es : ((List.zipWith (· - ·) ts ps).map
            (fun x => Real.log (Real.cosh (a * x)))).sum = 0 := by linarith
        have hz := (log_cosh_eq_zero_iff _).1 e0
        have : t0 - p0 = 0 := by
          rcases mul_eq_zero.1 hz with h1 | h1
          · exact absurd h1 ha
          · exact h1
        exact ⟨by linarith, hiff.1 es⟩
      · rintro ⟨h1, h2⟩
        rw [hiff.2 h2, h1, sub_self, mul_zero, Real.cosh_zero, Real.log_one, add_zero]

/-- C19: for every a > 0 and every non-empty prediction and target of the same
shape, Forward of LogCoshLoss returns a value >= 0, with either reduction
setting, and the value is 0 if and only if prediction equals target
element-wise. -/
theorem C19_log_cosh_nonneg (a : ℝ) (ha : 0 < a) (reduction : Bool) (p t : Mat ℝ)
    (hsize : p.size = t.size) (hp : p.wf) (ht : t.wf) (hne : p.n_elem ≠ 0) :
    ∃ v, LogCoshLoss.Forward Real.log Real.cosh { a := a, reduction := reduction } p t = .ok v ∧
      0 ≤ v ∧ (v = 0 ↔ p.mem = t.mem) := by
  have hlen : p.mem.length = t.mem.length := by
    rw [hp, ht, ((Mat.size_eq_iff p t).1 hsize).1, ((Mat.size_eq_iff p t).1 hsize).2]
  obtain ⟨hge, hiff⟩ := log_cosh_sum a ha.ne' t.mem p.mem hlen
  have hn : (0 : ℝ) < (t.n_elem : ℝ) := by
    rw [← Mat.n_elem_eq_of_size_eq p t hsize]
    exact Nat.cast_pos.2 (Nat.pos_of_ne_zero hne)
  have ht0 : t.n_elem ≠ 0 := Mat.n_elem_eq_of_size_eq p t hsize ▸ hne
  refine ⟨_, logcosh_Forward_ok Real.log Real.cosh _ p t hsize (Or.inr ht0), ?_, ?_⟩
  · cases reduction
    · simp only [Bool.false_eq_true, if_false]
      exact div_nonneg (div_nonneg hge ha.le) hn.le
    · simp only [if_true]
      exact div_nonneg hge ha.le
  · cases reduction
    · simp only [Bool.false_eq_true, if_false]
      rw [div_eq_zero_iff, div_eq_zero_iff]
      constructor
      · rintro ((h | h) | h)
        · exact hiff.1 h
        · exact absurd h ha.ne'
        · exact absurd h hn.ne'
      · intro h
        exact Or.inl (Or.inl (hiff.2 h))
    · simp only [if_true]
      rw [div_eq_zero_iff]
      constructor
      · rintro (h | h)
        · exact hiff.1 h
        · exact absurd h ha.ne'
      · intro h
        exact Or.inl (hiff.2 h)

/-- C19 at a concrete input: a = 1, the 1 x 2 prediction (3, 4) and target
(3, 5). -/
theorem C19_log_cosh_nonneg_witness :
    ((0 : ℝ) < 1 ∧
      ({ n_rows := 1, n_cols := 2, mem := [3, 4] } : Mat ℝ).size =
        ({ n_rows := 1, n_cols := 2, mem := [3, 5] } : Mat ℝ).size ∧
      ({ n_rows := 1, n_cols := 2, mem := [3, 4] } : Mat ℝ).wf ∧
      ({ n_rows := 1, n_cols := 2, mem := [3, 5] } : Mat ℝ).wf ∧
      ({ n_rows := 1, n_cols := 2, mem := [3, 4] } : Mat ℝ).n_elem ≠ 0) ∧
    ∃ v, LogCoshLoss.Forward Real.log Real.cosh { a := 1, reduction := false }
        { n_rows := 1, n_cols := 2, mem := [3, 4] }
        { n_rows := 1, n_cols := 2, mem := [3, 5] } = .ok v ∧
      0 ≤ v ∧
      (v = 0 ↔ ({ n_rows := 1, n_cols := 2, mem := [3, 4] } : Mat ℝ).mem =
        ({ n_rows := 1, n_cols := 2, mem := [3, 5] } : Mat ℝ).mem) :=
  ⟨⟨one_pos, by decide, by decide, by decide, by decide⟩,
    C19_log_cosh_nonneg 1 one_pos false
      { n_rows := 1, n_cols := 2, mem := [3, 4] }
      { n_rows := 1, n_cols := 2, mem := [3, 5] }
      (by decide) (by decide) (by decide) (by decide)⟩

/-! ## The segment loop of CosineEmbeddingLoss is safe and total (C20) -/

/-- C20: for every prediction and target of the same shape, r x c with c >= 1,
the loop of Forward and Backward runs its body at i = 0, c, ..., (r - 1) * c and
stops, which are r = n_elem / c iterations (the batch size); every span
[i, i + c - 1] lies inside the n_elem-long vectorised arrays; every index below
n_elem lies in exactly one span; and Backward returns with an output of n_elem
elements that does not depend on what the output memory held before, every
element having been written. -/
theorem C20_segment_loop {α : Type} [LinearOrderedField α]
    (Evaluate : List α → List α → α) (sqrt : α → α) (self : CosineEmbeddingLoss α)
    (p t loss : Mat α) (uninit : Nat → α)
    (hc : p.n_cols ≠ 0) (hsize : p.size = t.size) (hp : p.wf) (ht : t.wf) :
    (∀ (σ : Type) (body : Nat → σ → σ) (s : σ),
      spanLoop p.n_cols (Mat.vectorise p).n_elem (Nat.pos_of_ne_zero hc) body 0 s =
        ((List.range p.n_rows).map (fun k => k * p.n_cols)).foldl (fun s i => body i s) s) ∧
    CosineEmbeddingLoss.loopIndices p.n_cols (Mat.vectorise p).n_elem (Nat.pos_of_ne_zero hc) =
      (List.range p.n_rows).map (fun k => k * p.n_cols) ∧
    (CosineEmbeddingLoss.loopIndices p.n_cols (Mat.vectorise p).n_elem
      (Nat.pos_of_ne_zero hc)).length = p.n_elem / p.n_cols ∧
    (∀ i ∈ CosineEmbeddingLoss.loopIndices p.n_cols (Mat.vectorise p).n_elem
        (Nat.pos_of_ne_zero hc),
      i + p.n_cols - 1 < (Mat.vectorise p).mem.length ∧
      i + p.n_cols - 1 < (Mat.vectorise t).mem.length ∧
      (Mat.vectorise p).mem.length = p.n_elem) ∧
    (∀ j, j < p.n_elem →
      ∃! i, i ∈ CosineEmbeddingLoss.loopIndices p.n_cols (Mat.vectorise p).n_elem
          (Nat.pos_of_ne_zero hc) ∧ i ≤ j ∧ j ≤ i + p.n_cols - 1) ∧
    (CosineEmbeddingLoss.Backward Evaluate sqrt self p t loss uninit).1 = .ok () ∧
    (CosineEmbeddingLoss.Backward Evaluate sqrt self p t loss uninit).2.mem.length = p.n_elem ∧
    (∀ (loss' : Mat α) (uninit' : Nat → α),
      CosineEmbeddingLoss.Backward Evaluate sqrt self p t loss' uninit' =
        CosineEmbeddingLoss.Backward Evaluate sqrt self p t loss uninit) := by
  have hpos : 0 < p.n_cols := Nat.pos_of_ne_zero hc
  obtain ⟨hr, hcc⟩ := (Mat.size_eq_iff p t).1 hsize
  have hn : (Mat.vectorise p).n_elem = p.n_rows * p.n_cols := by
    simp [Mat.vectorise, Mat.n_elem]
  have hidx : CosineEmbeddingLoss.loopIndices p.n_cols (Mat.vectorise p).n_elem hpos =
      (List.range p.n_rows).map (fun k => k * p.n_cols) := by
    rw [← loopIndices_eq p.n_cols p.n_rows hpos]
    simp only [hn]
  have hle : ∀ k, k < p.n_rows → k * p.n_cols + p.n_cols ≤ p.n_rows * p.n_cols := by
    intro k hk
    have : (k + 1) * p.n_cols ≤ p.n_rows * p.n_cols := Nat.mul_le_mul_right _ hk
    linarith [Nat.succ_mul k p.n_cols]
  refine ⟨?_, hidx, ?_, ?_, ?_, ?_, ?_, ?_⟩
  · intro σ body s
    have h := spanLoop_eq_foldl p.n_cols p.n_rows hpos body p.n_rows 0 (by omega) s
    simp only [Nat.zero_mul] at h
    simp only [hn]
    rw [h, List.foldl_map, List.range_eq_range']
  · rw [hidx, List.length_map, List.length_range]
    exact (Nat.mul_div_cancel _ hpos).symm
  · intro i hi
    rw [hidx] at hi
    obtain ⟨k, hk, rfl⟩ := List.mem_map.1 hi
    have hk' := hle k (List.mem_range.1 hk)
    have hlp : (Mat.vectorise p).mem.length = p.n_rows * p.n_cols := hp
    have hlt : (Mat.vectorise t).mem.length = p.n_rows * p.n_cols := by
      rw [hr, hcc]; exact ht
    refine ⟨?_, ?_, hlp⟩
    · rw [hlp]; omega
    · rw [hlt]; omega
  · intro j hj
    have hj' : j < p.n_rows * p.n_cols := hj
    refine ⟨j / p.n_cols * p.n_cols, ⟨?_, ?_, ?_⟩, ?_⟩
    · rw [hidx]
      exact List.mem_map.2 ⟨j / p.n_cols,
        List.mem_range.2 ((Nat.div_lt_iff_lt_mul hpos).2 hj'), rfl⟩
    · exact Nat.div_mul_le_self j p.n_cols
    · have := Nat.lt_div_mul_add (a := j) hpos
      omega
    · rintro i ⟨hi, h1, h2⟩
      rw [hidx] at hi
      obtain ⟨k, _, rfl⟩ := List.mem_map.1 hi
      have : j / p.n_cols = k :=
        Nat.div_eq_of_lt_le h1 (by rw [Nat.succ_mul]; omega)
      rw [this]
  · rw [cosine_Backward_eq _ _ _ _ _ _ _ hc hsize hp ht]
  · rw [cosine_Backward_eq _ _ _ _ _ _ _ hc hsize hp ht]
    simp only []
    rw [length_flatMap_range p.n_cols _ p.n_rows]
    · rfl
    · intro k hk
      rw [List.length_map]
      exact segmentGradient_length _ _ _ _ _ _
        (span_length _ _ _ hpos (by rw [hp]; exact hle k hk))
        (span_length _ _ _ hpos (by rw [ht, ← hr, ← hcc]; exact hle k hk))
  · intro loss' uninit'
    rw [cosine_Backward_eq _ _ _ _ _ _ _ hc hsize hp ht,
      cosine_Backward_eq _ _ _ _ _ _ _ hc hsize hp ht]

/-- C20 at a concrete input: a 2 x 3 prediction and target; the loop visits
i = 0 and i = 3. -/
theorem C20_segment_loop_witness :
    (({ n_rows := 2, n_cols := 3, mem := [1, 2, 3, 4, 5, 6] } : Mat ℝ).n_cols ≠ 0 ∧
      ({ n_rows := 2, n_cols := 3, mem := [1, 2, 3, 4, 5, 6] } : Mat ℝ).size =
        ({ n_rows := 2, n_cols := 3, mem := [6, 5, 4, 3, 2, 1] } : Mat ℝ).size ∧
      ({ n_rows := 2, n_cols := 3, mem := [1, 2, 3, 4, 5, 6] } : Mat ℝ).wf ∧
      ({ n_rows := 2, n_cols := 3, mem := [6, 5, 4, 3, 2, 1] } : Mat ℝ).wf) ∧
    CosineEmbeddingLoss.loopIndices 3
        (Mat.vectorise ({ n_rows := 2, n_cols := 3, mem := [1, 2, 3, 4, 5, 6] } : Mat ℝ)).n_elem
        (Nat.pos_of_ne_zero (by decide)) =
      (List.range 2).map (fun k => k * 3) :=
  ⟨⟨by decide, by decide, by decide, by decide⟩,
    (C20_segment_loop (CosineDistance.Evaluate Real.sqrt) Real.sqrt
      { margin := 0, similarity := true, reduction := false }
      { n_rows := 2, n_cols := 3, mem := [1, 2, 3, 4, 5, 6] }
      { n_rows := 2, n_cols := 3, mem := [6, 5, 4, 3, 2, 1] }
      { n_rows := 0, n_cols := 0, mem := [] } (fun _ => 0)
      (by decide) (by decide) (by decide) (by decide)).2.1⟩

end mlpack
